import Mathlib

/-!
Verification development for the core of the Unicorn device manager
(`src/src/unicorn/{mod,device,platform,server,partition}.rs`).

The Rust state (`UnicornManager`, `DeviceTree`) is embedded shallowly:
BTreeMaps become association lists (with the representation convention that
`logical_devices` is kept in ascending-key order, which matches BTreeMap
iteration order because logic ids are allocated monotonically), capability
slots become natural numbers handed out by a monotonic counter (modelling
`CSpaceManager::alloc`), and external collaborators (the process manager's
`spawn`, the resource manager's `get_cap`, `MMIO_CAP.get_frame`, the block
driver probed by `probe_partitions`, `IrqHandler::ack`) appear as explicit
oracle parameters.  Observable outbound actions (driver spawns, kernel
capability requests, IRQ acks, hook notifications) are recorded in an event
list returned next to the state.
-/

namespace Unicorn

/-- Error codes from `glenda::error::Error` that the modelled code paths use. -/
inductive Err where
  | invalidArgs
  | notFound
  | notImplemented
  | invalidConfig
  | outOfMemory
  | otherErr
deriving DecidableEq, Repr

deriving instance DecidableEq for Except

/-- Observable outbound actions of the manager, in program order.
`spawn` is a `proc_client.spawn` call, `getCapMmio`/`sliceMmio` are the two
kernel-request branches of `get_mmio`, `getCapIrq` is the request in
`get_irq`, `ack` is `IrqHandler::ack` in `handle_irq`, and `notifyHook` is a
NOTIFY_HOOK send to a subscriber endpoint (the wire method the spec
describes; the source never emits it). -/
inductive Event where
  | spawn (bin : String)
  | getCapMmio (base : Nat)
  | sliceMmio (base : Nat) (pages : Nat)
  | getCapIrq (irq : Nat)
  | ack (slot : Nat)
  | notifyHook (cap : Nat)
deriving DecidableEq, Repr

/-- MMIO region from `glenda::protocol::device::MMIORegion`. -/
structure MMIORegion where
  base_addr : Nat
  size : Nat
deriving DecidableEq, Repr

/-- Physical device descriptor, `glenda::protocol::device::DeviceDesc`. -/
structure DeviceDesc where
  name : String
  compatible : List String
  mmio : List MMIORegion
  irq : List Nat
deriving DecidableEq, Repr

/-- Generational handle, `src/src/unicorn/platform.rs` `DeviceId`. -/
structure DeviceId where
  index : Nat
  generation : Nat
deriving DecidableEq, Repr

/-- Node state, `src/src/unicorn/platform.rs` `DeviceState`. -/
inductive DeviceState where
  | Running
  | Ready
  | Error
deriving DecidableEq, Repr

/-- Tree node, `src/src/unicorn/platform.rs` `DeviceNode`. -/
structure DeviceNode where
  parent : Option DeviceId
  children : List DeviceId
  id : DeviceId
  desc : DeviceDesc
  state : DeviceState
  logical_devices : List Nat
deriving DecidableEq, Repr

/-- Arena tree, `src/src/unicorn/platform.rs` `DeviceTree`. -/
structure DeviceTree where
  nodes : List (Option DeviceNode)
  generations : List Nat
  free_head : Option Nat
  root : Option DeviceId
deriving DecidableEq, Repr

/-- `DeviceTree::new`. -/
def DeviceTree.new : DeviceTree :=
  { nodes := [], generations := [], free_head := none, root := none }

/-- `DeviceTree::get_node`: slot lookup filtered by the node's own stored
generation (`n.id.generation == id.generation`). -/
def getNode (t : DeviceTree) (id : DeviceId) : Option DeviceNode :=
  match t.nodes[id.index]? with
  | some (some n) => if n.id.generation = id.generation then some n else none
  | _ => none

/-- `DeviceTree::contains`. -/
def treeContains (t : DeviceTree) (id : DeviceId) : Bool :=
  (getNode t id).isSome

/-- `DeviceTree::get_node_mut` as a functional modifier: checks the
`generations` array entry (not the stored node id, mirroring the source
asymmetry between `get_node` and `get_node_mut`) and applies `f` to the slot
content.  `none` means the source's `get_node_mut` returned `None`. -/
def modifyNode (t : DeviceTree) (id : DeviceId) (f : DeviceNode → DeviceNode) :
    Option DeviceTree :=
  match t.generations[id.index]? with
  | none => none
  | some g =>
    if g ≠ id.generation then none
    else
      match t.nodes[id.index]? with
      | some (some n) => some { t with nodes := t.nodes.set id.index (some (f n)) }
      | _ => none

/-- Slot-filling part of `DeviceTree::insert` (platform.rs lines 64-89),
given the tree after the slot-index choice and the chosen index `idx`.  The
source indexes `self.generations[idx]`; the model uses `getD 0` for
totality (the index is always in bounds on the paths the program exercises,
because `free_head` is never `Some`: nothing ever pushes to the free
list). -/
def treeInsertAt (t1 : DeviceTree) (parent_id : Option DeviceId) (desc : DeviceDesc)
    (idx : Nat) : DeviceTree × Except Err DeviceId :=
  let id : DeviceId := { index := idx, generation := t1.generations[idx]?.getD 0 }
  let node : DeviceNode :=
    { parent := parent_id, children := [], id := id, desc := desc,
      state := .Ready, logical_devices := [] }
  let t2 := { t1 with nodes := t1.nodes.set idx (some node) }
  let t3 :=
    match parent_id with
    | some pid =>
      match t2.nodes[pid.index]? with
      | some (some p_node) =>
        if p_node.id.generation = pid.generation then
          { t2 with
            nodes := t2.nodes.set pid.index
              (some { p_node with children := p_node.children ++ [id] }) }
        else t2
      | _ => t2
    | none => if t2.root = none then { t2 with root := some id } else t2
  (t3, .ok id)

/-- Body of `DeviceTree::insert` after the parent validation (platform.rs
lines 54-91): reuse the free-list head if any, otherwise append a fresh
slot. -/
def treeInsertGo (t : DeviceTree) (parent_id : Option DeviceId) (desc : DeviceDesc) :
    DeviceTree × Except Err DeviceId :=
  match t.free_head with
  | some head => treeInsertAt { t with free_head := none } parent_id desc head
  | none =>
    treeInsertAt
      { t with nodes := t.nodes ++ [none], generations := t.generations ++ [0] }
      parent_id desc t.nodes.length

/-- `DeviceTree::insert` (platform.rs lines 42-92).  Returns the updated tree
together with the result; on error the tree is returned unchanged. -/
def treeInsert (t : DeviceTree) (parent_id : Option DeviceId) (desc : DeviceDesc) :
    DeviceTree × Except Err DeviceId :=
  match parent_id with
  | some pid =>
    if ¬ treeContains t pid then (t, .error .invalidArgs)
    else treeInsertGo t parent_id desc
  | none => treeInsertGo t parent_id desc

/-- Flat subtree element, `glenda::protocol::device::DeviceDescNode`. -/
structure DeviceDescNode where
  parent : Nat
  desc : DeviceDesc
deriving DecidableEq, Repr

/-- The `usize::MAX` sentinel used by `mount_subtree` for "attach to the
mount point". -/
def usizeMax : Nat := 2 ^ 64 - 1

/-- Loop body of `DeviceTree::mount_subtree` (platform.rs lines 189-197).
`i` is the running index into the original list and `index_map` the
index-to-DeviceId map built so far.  On error the tree mutated so far is
returned (the source propagates the error with `?` after in-place inserts). -/
def mountGo (t : DeviceTree) (mount_point : DeviceId)
    (index_map : List (Nat × DeviceId)) (i : Nat) :
    List DeviceDescNode → DeviceTree × List (Nat × DeviceId) × Except Err Unit
  | [] => (t, index_map, .ok ())
  | nd :: rest =>
    let pid? : Except Err DeviceId :=
      if nd.parent = usizeMax then .ok mount_point
      else
        match index_map.lookup nd.parent with
        | some p => .ok p
        | none => .error .invalidArgs
    match pid? with
    | .error e => (t, index_map, .error e)
    | .ok parent_id =>
      match treeInsert t (some parent_id) nd.desc with
      | (t', .error e) => (t', index_map, .error e)
      | (t', .ok new_id) =>
        mountGo t' mount_point (index_map ++ [(i, new_id)]) (i + 1) rest

/-- `DeviceTree::mount_subtree` (platform.rs lines 177-200). -/
def mountSubtree (t : DeviceTree) (mount_point : DeviceId)
    (nodes : List DeviceDescNode) : DeviceTree × Except Err Unit :=
  if ¬ treeContains t mount_point then (t, .error .invalidArgs)
  else
    let (t', _, r) := mountGo t mount_point [] 0 nodes
    (t', r)

/-- Partition metadata, `glenda::protocol::device::PartitionMetadata`. -/
structure PartitionMetadata where
  parent : Nat
  start_lba : Nat
  num_blocks : Nat
  block_size : Nat
deriving DecidableEq, Repr

/-- Logic device type.  The variants are exactly the ones the exhaustive
match in `register_logic` (device.rs lines 194-251) covers: the live
`glenda::protocol::device::LogicDeviceType` has no `Volume` or `Timer`
variant (a wildcard-free match over these ten constructors compiles). -/
inductive LogicDeviceType where
  | rawBlock (meta : PartitionMetadata)
  | block (meta : PartitionMetadata)
  | net
  | fb
  | uart
  | input
  | gpio
  | platform
  | thermal
  | battery
deriving DecidableEq, Repr

/-- Logic device descriptor, `glenda::protocol::device::LogicDeviceDesc`.
The `name` field is the one the dead-code `query` iteration consults via
`desc.name`; the live protocol struct carries `parent_name`, `dev_type` and
`badge`. -/
structure LogicDeviceDesc where
  parent_name : String
  dev_type : LogicDeviceType
  badge : Option Nat
deriving DecidableEq, Repr

/-- Hook target, `glenda::protocol::device::HookTarget`. -/
inductive HookTarget where
  | endpoint (e : Nat)
  | type (t : LogicDeviceType)
deriving DecidableEq, Repr

/-- Manifest entry, `src/src/config.rs` `DriverEntry`. -/
structure DriverEntry where
  name : String
  compatible : List String
deriving DecidableEq, Repr

/-- Driver manifest, `src/src/config.rs` `Manifest`. -/
structure Manifest where
  drivers : List DriverEntry
deriving DecidableEq, Repr

/-- Device query payload, `glenda::protocol::device::DeviceQuery`. -/
structure DeviceQuery where
  name : Option String
  compatible : List String
  dev_type : Option LogicDeviceType
deriving DecidableEq, Repr

/-- Association-list lookup (`BTreeMap::get`). -/
def lookupA {α : Type} : List (Nat × α) → Nat → Option α
  | [], _ => none
  | (k, v) :: rest, key => if k = key then some v else lookupA rest key

/-- Association-list erase (`BTreeMap::remove`). -/
def eraseA {α : Type} : List (Nat × α) → Nat → List (Nat × α)
  | [], _ => []
  | kv :: rest, key =>
    if kv.1 = key then eraseA rest key else kv :: eraseA rest key

/-- Association-list insert-or-replace (`BTreeMap::insert`). -/
def insertA {α : Type} (l : List (Nat × α)) (key : Nat) (v : α) : List (Nat × α) :=
  (key, v) :: eraseA l key

/-- State of `UnicornManager` (mod.rs lines 22-50).  `next_slot` models the
`CSpaceManager` allocator handle (fresh consecutive slots, never failing);
`irqs` and `thermal_zones` are carried for completeness though no modelled
claim reads them. -/
structure UState where
  tree : DeviceTree
  pids : List (Nat × DeviceId)
  irqs : List (Nat × DeviceId)
  irq_caps : List (Nat × Nat)
  mmio_caps : List (Nat × Nat)
  logical_devices : List (Nat × (LogicDeviceDesc × Nat × String))
  hooks : List (HookTarget × Nat)
  next_logic_id : Nat
  disk_count : Nat
  net_count : Nat
  fb_count : Nat
  uart_count : Nat
  input_count : Nat
  gpio_count : Nat
  platform_count : Nat
  thermal_count : Nat
  battery_count : Nat
  config : Manifest
  next_slot : Nat
deriving DecidableEq, Repr

/-- `UnicornManager::new` (mod.rs lines 53-88), with the manifest already
loaded as `init` does, and an arbitrary starting CSpace slot. -/
def initState (cfg : Manifest) (slot0 : Nat) : UState :=
  { tree := DeviceTree.new, pids := [], irqs := [], irq_caps := [],
    mmio_caps := [], logical_devices := [], hooks := [],
    next_logic_id := 1, disk_count := 0, net_count := 0, fb_count := 0,
    uart_count := 0, input_count := 0, gpio_count := 0, platform_count := 0,
    thermal_count := 0, battery_count := 0, config := cfg, next_slot := slot0 }

/-- `UnicornManager::match_driver` (mod.rs lines 180-196): first manifest
entry whose compatible list contains the device name or any device
compatible string. -/
def matchDriver (cfg : Manifest) (dev_name : String) (dev_compat : List String) :
    Option String :=
  (cfg.drivers.find? (fun drv =>
    drv.compatible.contains dev_name ||
      dev_compat.any (fun dc => drv.compatible.contains dc))).map
    (fun drv => drv.name)

/-- The spawn oracle stands for `proc_client.spawn`; it is consulted at the
k-th spawn attempt of the current handler and yields either the new pid or a
spawn error. -/
def SpawnOracle : Type := Nat → Except Err Nat

/-- `UnicornManager::start_driver` (mod.rs lines 141-178).  Returns the new
state, the next spawn-attempt counter and the emitted events.  The `Err`
result of the source is dropped because its only caller (`scan_subtree`)
ignores it with `let _ =`. -/
def startDriver (s : UState) (id : DeviceId) (orc : SpawnOracle) (k : Nat) :
    UState × Nat × List Event :=
  match getNode s.tree id with
  | none => (s, k, [])
  | some node =>
    if node.state ≠ .Ready then (s, k, [])
    else
      match matchDriver s.config node.desc.name node.desc.compatible with
      | none => (s, k, [])
      | some bin =>
        match orc k with
        | .ok pid =>
          match modifyNode s.tree id (fun n => { n with state := .Running }) with
          | none => (s, k + 1, [.spawn bin])
          | some t' =>
            ({ s with tree := t', pids := insertA s.pids pid id },
              k + 1, [.spawn bin])
        | .error _ =>
          match modifyNode s.tree id (fun n => { n with state := .Error }) with
          | none => (s, k + 1, [.spawn bin])
          | some t' => ({ s with tree := t' }, k + 1, [.spawn bin])

/-- BFS worker of `scan_subtree` (device.rs lines 18-40).  `fuel` bounds the
number of queue pops (the source terminates because the tree is acyclic);
the final component reports whether the queue was fully drained within the
fuel. -/
def scanGo (orc : SpawnOracle) : Nat → List DeviceId → UState → Nat →
    UState × Nat × List Event × Bool
  | 0, queue, s, k => (s, k, [], queue.isEmpty)
  | _ + 1, [], s, k => (s, k, [], true)
  | fuel + 1, id :: rest, s, k =>
    match getNode s.tree id with
    | none => scanGo orc fuel rest s k
    | some node =>
      if node.state = .Ready then
        match startDriver s id orc k with
        | (s1, k1, evs1) =>
          match scanGo orc fuel (rest ++ node.children) s1 k1 with
          | (s2, k2, evs2, comp) => (s2, k2, evs1 ++ evs2, comp)
      else scanGo orc fuel (rest ++ node.children) s k

/-- `UnicornManager::scan_subtree` (device.rs lines 18-40). -/
def scanSubtree (s : UState) (start_id : DeviceId) (orc : SpawnOracle) (fuel : Nat) :
    UState × Nat × List Event × Bool :=
  scanGo orc fuel [start_id] s 0

/-- `DeviceService::scan_platform` (device.rs lines 85-87). -/
def scanPlatform (s : UState) (orc : SpawnOracle) (fuel : Nat) :
    UState × Nat × List Event × Bool :=
  match s.tree.root with
  | some root => scanSubtree s root orc fuel
  | none => (s, 0, [], true)

/-- Page size from `glenda::arch::mem::PGSIZE`. -/
def PGSIZE : Nat := 4096

/-- `DeviceService::report` (device.rs lines 145-154). -/
def report (s : UState) (badge : Nat) (descs : List DeviceDescNode)
    (orc : SpawnOracle) (fuel : Nat) : UState × Except Err Unit × List Event :=
  match lookupA s.pids badge with
  | some node_id =>
    match mountSubtree s.tree node_id descs with
    | (t', .error e) => ({ s with tree := t' }, .error e, [])
    | (t', .ok _) =>
      match scanSubtree { s with tree := t' } node_id orc fuel with
      | (s2, _, evs, _) => (s2, .ok (), evs)
  | none => (s, .error .invalidArgs, [])

/-- `DeviceService::update` (device.rs lines 156-171).  The caller's badge is
removed from `pids` before the node is touched; the node's compatible list
is replaced, its state reset to `Ready`, and the subtree rescanned inline. -/
def update (s : UState) (badge : Nat) (compatible : List String)
    (orc : SpawnOracle) (fuel : Nat) : UState × Except Err Unit × List Event :=
  match lookupA s.pids badge with
  | some node_id =>
    let s1 := { s with pids := eraseA s.pids badge }
    match modifyNode s1.tree node_id
        (fun n => { n with desc := { n.desc with compatible := compatible },
                           state := .Ready }) with
    | none => (s1, .error .invalidArgs, [])
    | some t' =>
      match scanSubtree { s1 with tree := t' } node_id orc fuel with
      | (s3, _, evs, _) => (s3, .ok (), evs)
  | none => (s, .error .invalidArgs, [])

/-- `DeviceService::get_mmio` (device.rs lines 89-121).  A fresh CSpace slot
is allocated on every call and a kernel request is issued on every call
(`res_client.get_cap` for the `dtb`/`acpi` platform node, `MMIO_CAP
.get_frame` otherwise); `mmio_caps` is neither consulted nor populated (the
source comment reads "Ideally we should cache, but for now just mint new
frame").  `capRes` is the result of the external capability request. -/
def getMmio (s : UState) (badge : Nat) (idx : Nat) (capRes : Except Err Unit) :
    UState × Except Err (Nat × Nat × Nat) × List Event :=
  match lookupA s.pids badge with
  | none => (s, .error .invalidArgs, [])
  | some node_id =>
    match getNode s.tree node_id with
    | none => (s, .error .invalidArgs, [])
    | some node =>
      match node.desc.mmio[idx]? with
      | none => (s, .error .invalidArgs, [])
      | some region =>
        let slot := s.next_slot
        let s1 := { s with next_slot := s.next_slot + 1 }
        let ev :=
          if node.desc.name = "dtb" ∨ node.desc.name = "acpi" then
            Event.getCapMmio region.base_addr
          else
            Event.sliceMmio region.base_addr ((region.size + PGSIZE - 1) / PGSIZE)
        match capRes with
        | .ok _ => (s1, .ok (slot, region.base_addr, region.size), [ev])
        | .error e => (s1, .error e, [ev])

/-- `DeviceService::get_irq` (device.rs lines 123-143).  A fresh slot is
allocated and the IRQ capability requested from the resource manager on
every call; `irq_caps` is never touched. -/
def getIrq (s : UState) (badge : Nat) (idx : Nat) (capRes : Except Err Unit) :
    UState × Except Err Nat × List Event :=
  match lookupA s.pids badge with
  | none => (s, .error .invalidArgs, [])
  | some node_id =>
    match getNode s.tree node_id with
    | none => (s, .error .invalidArgs, [])
    | some node =>
      match node.desc.irq[idx]? with
      | none => (s, .error .invalidArgs, [])
      | some irq_num =>
        let slot := s.next_slot
        let s1 := { s with next_slot := s.next_slot + 1 }
        match capRes with
        | .ok _ => (s1, .ok slot, [.getCapIrq irq_num])
        | .error e => (s1, .error e, [.getCapIrq irq_num])

/-- True exactly for the `Block(_)` variant (not `RawBlock`). -/
def isBlockVariant : LogicDeviceType → Bool
  | .block _ => true
  | _ => false

/-- The `Block`-under-same-parent count used by the naming rule in
`register_logic` (device.rs lines 241-248 and 280-289). -/
def countBlocksUnder (lds : List (Nat × (LogicDeviceDesc × Nat × String)))
    (parent : String) : Nat :=
  (lds.filter (fun e =>
    isBlockVariant e.2.1.dev_type && e.2.1.parent_name == parent)).length

/-- The assigned-name computation of `register_logic` (device.rs lines
194-251), returning the name together with the state whose per-variant
counter was bumped. -/
def assignNameAndCount (s : UState) (desc : LogicDeviceDesc) : String × UState :=
  match desc.dev_type with
  | .rawBlock _ =>
    ("disk" ++ toString s.disk_count, { s with disk_count := s.disk_count + 1 })
  | .net =>
    ("net" ++ toString s.net_count, { s with net_count := s.net_count + 1 })
  | .fb =>
    ("fb" ++ toString s.fb_count, { s with fb_count := s.fb_count + 1 })
  | .uart =>
    ("uart" ++ toString s.uart_count, { s with uart_count := s.uart_count + 1 })
  | .input =>
    ("input" ++ toString s.input_count, { s with input_count := s.input_count + 1 })
  | .gpio =>
    ("gpio" ++ toString s.gpio_count, { s with gpio_count := s.gpio_count + 1 })
  | .platform =>
    ("platform" ++ toString s.platform_count,
      { s with platform_count := s.platform_count + 1 })
  | .thermal =>
    ("thermal" ++ toString s.thermal_count,
      { s with thermal_count := s.thermal_count + 1 })
  | .battery =>
    ("battery" ++ toString s.battery_count,
      { s with battery_count := s.battery_count + 1 })
  | .block _ =>
    (desc.parent_name ++ "p" ++
      toString (countBlocksUnder s.logical_devices desc.parent_name + 1), s)

/-- The partition registration loop of `register_logic` (device.rs lines
266-295): per partition, a fresh logic id and a fresh slot (the badged mint
of Unicorn's own endpoint), a `{parent}p{K+1}` name computed against the
devices registered so far, and the insertion. -/
def addPartitions (s : UState) : List LogicDeviceDesc → UState
  | [] => s
  | p :: rest =>
    let p_idx := s.next_logic_id
    let s1 := { s with next_logic_id := s.next_logic_id + 1 }
    let slot := s1.next_slot
    let s2 := { s1 with next_slot := s1.next_slot + 1 }
    let p_name := p.parent_name ++ "p" ++
      toString (countBlocksUnder s2.logical_devices p.parent_name + 1)
    addPartitions
      { s2 with logical_devices := s2.logical_devices ++ [(p_idx, (p, slot, p_name))] }
      rest

/-- `DeviceService::register_logic` (device.rs lines 173-298).  `endpoint`
is the receive-window capability (`none` models a null cap), `probe` the
outcome of `probe_partitions` for the RawBlock path (block-driver IPC is
external).  The mint/move of the endpoint into the fresh slot is modelled as
always succeeding.  The source fires no hook notification and emits no
outbound event on this path. -/
def registerLogic (s : UState) (desc : LogicDeviceDesc) (endpoint : Option Nat)
    (probe : Except Err (List LogicDeviceDesc)) :
    UState × Except Err Unit × List Event :=
  match endpoint with
  | none => (s, .error .invalidArgs, [])
  | some _ =>
    match assignNameAndCount { s with next_slot := s.next_slot + 1 } desc with
    | (name, s2) =>
      let s4 :=
        { s2 with
          next_logic_id := s2.next_logic_id + 1,
          logical_devices :=
            s2.logical_devices ++ [(s2.next_logic_id, (desc, s.next_slot, name))] }
      match desc.dev_type with
      | .rawBlock _ =>
        match probe with
        | .error e => (s4, .error e, [])
        | .ok parts => (addPartitions s4 parts, .ok (), [])
      | _ => (s4, .ok (), [])

/-- Variant codes of `alloc_logic` (device.rs lines 306-320). -/
def typeCodeMatches : LogicDeviceType → Nat → Bool
  | .rawBlock _, 1 => true
  | .block _, 2 => true
  | .net, 3 => true
  | .fb, 4 => true
  | .uart, 5 => true
  | .input, 6 => true
  | .gpio, 7 => true
  | .platform, 8 => true
  | .thermal, 9 => true
  | .battery, 10 => true
  | _, _ => false

/-- `DeviceService::alloc_logic` (device.rs lines 300-333): first entry in
ascending id order matching the coded variant and the exact assigned name;
a fresh slot receives the badged mint of Unicorn's endpoint. -/
def allocLogic (s : UState) (dev_type : Nat) (criteria : String) :
    UState × Except Err Nat :=
  match s.logical_devices.find? (fun e =>
      typeCodeMatches e.2.1.dev_type dev_type && e.2.2.2 == criteria) with
  | some _ => ({ s with next_slot := s.next_slot + 1 }, .ok s.next_slot)
  | none => (s, .error .notFound)

/-- `UnicornManager::query_recursive` (device.rs lines 42-63): pre-order
walk pushing the physical node's `desc.name`, filtered only by membership
of a query-compatible string in the node's compatible list. -/
def queryRec (t : DeviceTree) (q : DeviceQuery) : Nat → DeviceId → List String
  | 0, _ => []
  | fuel + 1, id =>
    match getNode t id with
    | none => []
    | some node =>
      let own :=
        if q.compatible.isEmpty then [node.desc.name]
        else if q.compatible.any (fun c => node.desc.compatible.contains c) then
          [node.desc.name]
        else []
      own ++ (node.children.map (fun c => queryRec t q fuel c)).flatten

/-- `DeviceService::query` (device.rs lines 335-351): the tree walk, then
every logical device's assigned name whenever the compatible filter is
empty.  The `name` and `dev_type` query fields are never read. -/
def queryOp (s : UState) (q : DeviceQuery) (fuel : Nat) : List String :=
  let treePart :=
    match s.tree.root with
    | some root => queryRec s.tree q fuel root
    | none => []
  let logicPart :=
    if q.compatible.isEmpty then s.logical_devices.map (fun e => e.2.2.2) else []
  treePart ++ logicPart

/-- `UnicornManager::find_desc_recursive` (device.rs lines 65-81). -/
def findDescRec (t : DeviceTree) (name : String) : Nat → DeviceId → Option DeviceDesc
  | 0, _ => none
  | fuel + 1, id =>
    match getNode t id with
    | none => none
    | some node =>
      if node.desc.name = name then some node.desc
      else node.children.findSome? (fun c => findDescRec t name fuel c)

/-- `DeviceService::get_desc` (device.rs lines 353-362). -/
def getDescOp (s : UState) (name : String) (fuel : Nat) : Except Err DeviceDesc :=
  match s.tree.root with
  | some root =>
    match findDescRec s.tree name fuel root with
    | some d => .ok d
    | none => .error .notFound
  | none => .error .notFound

/-- `UnicornManager::handle_irq` (server.rs lines 216-225): ack on the
cached handler capability when `irq_caps` has the IRQ, otherwise log and
ignore.  `ackRes` is the result of the external `IrqHandler::ack` call. -/
def handleIrq (s : UState) (irq : Nat) (ackRes : Except Err Unit) :
    UState × Except Err Unit × List Event :=
  match lookupA s.irq_caps irq with
  | some slot => (s, ackRes, [.ack slot])
  | none => (s, .ok (), [])

/-- States reachable from initialization by any sequence of the modelled
operations (the init-time inserts of `init_root_platform` and
`init_initrd_device` are instances of `insertStep`; the dispatch table of
`server.rs` drives the remaining steps with arbitrary payloads and oracle
outcomes).  `query`/`get_desc`/`get_*_zones` do not mutate the modelled
state and need no step. -/
inductive Reach : UState → Prop where
  | init (cfg : Manifest) (slot0 : Nat) : Reach (initState cfg slot0)
  | insertStep (s : UState) (p : Option DeviceId) (desc : DeviceDesc) :
      Reach s → Reach { s with tree := (treeInsert s.tree p desc).1 }
  | scanStep (s : UState) (orc : SpawnOracle) (fuel : Nat) :
      Reach s → Reach (scanPlatform s orc fuel).1
  | scanSubStep (s : UState) (id : DeviceId) (orc : SpawnOracle) (fuel : Nat) :
      Reach s → Reach (scanSubtree s id orc fuel).1
  | reportStep (s : UState) (b : Nat) (descs : List DeviceDescNode)
      (orc : SpawnOracle) (fuel : Nat) :
      Reach s → Reach (report s b descs orc fuel).1
  | updateStep (s : UState) (b : Nat) (compat : List String)
      (orc : SpawnOracle) (fuel : Nat) :
      Reach s → Reach (update s b compat orc fuel).1
  | getMmioStep (s : UState) (b i : Nat) (r : Except Err Unit) :
      Reach s → Reach (getMmio s b i r).1
  | getIrqStep (s : UState) (b i : Nat) (r : Except Err Unit) :
      Reach s → Reach (getIrq s b i r).1
  | registerStep (s : UState) (desc : LogicDeviceDesc) (ep : Option Nat)
      (probe : Except Err (List LogicDeviceDesc)) :
      Reach s → Reach (registerLogic s desc ep probe).1
  | allocStep (s : UState) (ty : Nat) (crit : String) :
      Reach s → Reach (allocLogic s ty crit).1
  | irqStep (s : UState) (irq : Nat) (r : Except Err Unit) :
      Reach s → Reach (handleIrq s irq r).1

/-- Variant discriminant of `LogicDeviceType` (payloads ignored). -/
def devTypeTag : LogicDeviceType → Nat
  | .rawBlock _ => 0
  | .block _ => 1
  | .net => 2
  | .fb => 3
  | .uart => 4
  | .input => 5
  | .gpio => 6
  | .platform => 7
  | .thermal => 8
  | .battery => 9

/-- Modelled from the spec: hook matching (§4.6) is absent from the source
(no HOOK dispatch entry exists and nothing reads `hooks`), so the predicate
"target matches logic device L" is taken from the spec's words: an
`Endpoint(e)` target matches when `e` equals the entry's endpoint capability
bits, a `Type(t)` target when `t` has the same variant as the entry's
`dev_type`. -/
def hookMatches (tgt : HookTarget) (entry : LogicDeviceDesc × Nat × String) : Bool :=
  match tgt with
  | .endpoint e => e == entry.2.1
  | .type ty => devTypeTag ty == devTypeTag entry.1.dev_type

/-- The logic entry freshly created by a `register_logic` call (its id is
the pre-call `next_logic_id`). -/
def newLogicEntry (s : UState) (desc : LogicDeviceDesc) (ep : Option Nat)
    (probe : Except Err (List LogicDeviceDesc)) :
    Option (LogicDeviceDesc × Nat × String) :=
  lookupA (registerLogic s desc ep probe).1.logical_devices s.next_logic_id

/-- Per-variant name counters of `UnicornManager`, as an enumerable index. -/
inductive CounterKind where
  | disk
  | net
  | fb
  | uart
  | input
  | gpio
  | platformCtr
  | thermal
  | battery
deriving DecidableEq, Repr

/-- Projection of the counter fields of the state. -/
def ctr (s : UState) : CounterKind → Nat
  | .disk => s.disk_count
  | .net => s.net_count
  | .fb => s.fb_count
  | .uart => s.uart_count
  | .input => s.input_count
  | .gpio => s.gpio_count
  | .platformCtr => s.platform_count
  | .thermal => s.thermal_count
  | .battery => s.battery_count

/-- The counter a variant's name draws from (`Block` uses the per-parent
count instead of a counter). -/
def counterKindOf : LogicDeviceType → Option CounterKind
  | .rawBlock _ => some .disk
  | .block _ => none
  | .net => some .net
  | .fb => some .fb
  | .uart => some .uart
  | .input => some .input
  | .gpio => some .gpio
  | .platform => some .platformCtr
  | .thermal => some .thermal
  | .battery => some .battery

/-- The naming rule in the spec's words, as amended to what the code does:
`RawBlock` gives `disk{N}`, `Block` gives `{parent_name}p{K+1}` with K the
current count of Block entries under the same parent, the simple variants
append their monotone counter, and `Platform` gives `platform{N}` (with a
counter, unlike the original spec sentence).  `Volume` and `Timer` variants
do not exist in the live protocol enum. -/
def specAssignedName (s : UState) (desc : LogicDeviceDesc) : String :=
  match desc.dev_type with
  | .rawBlock _ => "disk" ++ toString s.disk_count
  | .block _ =>
    desc.parent_name ++ "p" ++
      toString (countBlocksUnder s.logical_devices desc.parent_name + 1)
  | .net => "net" ++ toString s.net_count
  | .fb => "fb" ++ toString s.fb_count
  | .uart => "uart" ++ toString s.uart_count
  | .input => "input" ++ toString s.input_count
  | .gpio => "gpio" ++ toString s.gpio_count
  | .platform => "platform" ++ toString s.platform_count
  | .thermal => "thermal" ++ toString s.thermal_count
  | .battery => "battery" ++ toString s.battery_count

/-- Well-formedness of the arena: the generations array tracks the node
array, and each stored node's recorded generation agrees with the
generations entry for its slot.  Holds in every reachable state (the tree
is add-only, generations are never bumped). -/
def treeWF (t : DeviceTree) : Prop :=
  t.generations.length = t.nodes.length ∧
  ∀ (idx : Nat) (n : DeviceNode), t.nodes[idx]? = some (some n) →
    t.generations[idx]? = some n.id.generation

/-- The state invariant driven through `Reach`: an empty free list, a
well-formed arena, every `pids` value naming a currently `Running` node,
`pids` values distinct, and the never-written `irq_caps` and `hooks` still
empty. -/
def Inv (s : UState) : Prop :=
  s.tree.free_head = none ∧ treeWF s.tree ∧
  (∀ b id, lookupA s.pids b = some id →
    ∃ n, getNode s.tree id = some n ∧ n.state = .Running) ∧
  (∀ b1 b2 id, lookupA s.pids b1 = some id → lookupA s.pids b2 = some id → b1 = b2) ∧
  s.irq_caps = [] ∧ s.hooks = []

/-- Child-edge reachability in the arena, used to describe what a BFS scan
visits. -/
inductive ReachFrom (t : DeviceTree) : DeviceId → DeviceId → Prop where
  | refl (a : DeviceId) : ReachFrom t a a
  | head (a b c : DeviceId) (n : DeviceNode) : getNode t a = some n →
      b ∈ n.children → ReachFrom t b c → ReachFrom t a c

/-- A node is handled when it no longer triggers a spawn: if it is still
`Ready` then no manifest driver matches it. -/
def handled (s : UState) (id : DeviceId) : Prop :=
  ∀ n, getNode s.tree id = some n → n.state = .Ready →
    matchDriver s.config n.desc.name n.desc.compatible = none

/-- Everything about a node except its mutable `state`. -/
def stripNode (n : DeviceNode) :
    Option DeviceId × List DeviceId × DeviceId × DeviceDesc × List Nat :=
  (n.parent, n.children, n.id, n.desc, n.logical_devices)

/-- Two arenas with the same structure (only node states may differ). -/
def sameShape (t t' : DeviceTree) : Prop :=
  t'.root = t.root ∧ t'.generations = t.generations ∧
  ∀ id, (getNode t' id).map stripNode = (getNode t id).map stripNode

/-- A descriptor that has been inserted into the tree and linked under its
parent (the parent's children list holds its id). -/
def nodePlaced (t : DeviceTree) (d : DeviceDesc) : Prop :=
  ∃ id n, getNode t id = some n ∧ n.desc = d ∧
    ∃ pid pn, n.parent = some pid ∧ getNode t pid = some pn ∧ id ∈ pn.children

/-- What a scan pass may do to a state: the arena keeps its shape (only
node states change), the manifest is untouched, and no node ever moves
back to `Ready`. -/
def scanPreserves (s s' : UState) : Prop :=
  sameShape s.tree s'.tree ∧ s'.config = s.config ∧
  ∀ id n n', getNode s.tree id = some n → getNode s'.tree id = some n' →
    n'.state = .Ready → n.state = .Ready

/-! Concrete fixtures used by counterexamples and witnesses. -/

/-- Empty manifest. -/
def cfg0 : Manifest := { drivers := [] }

/-- A manifest whose single driver handles `virtio-net` devices. -/
def cfgBlk : Manifest := { drivers := [{ name := "blk", compatible := ["virtio-net"] }] }

/-- Sample partition metadata. -/
def pm0 : PartitionMetadata :=
  { parent := 0, start_lba := 0, num_blocks := 100, block_size := 512 }

/-- Sample physical device with one MMIO region and an IRQ. -/
def vdesc : DeviceDesc :=
  { name := "virtio0", compatible := ["virtio-net"],
    mmio := [{ base_addr := 4096, size := 4096 }], irq := [33] }

/-- A root device that no manifest driver matches. -/
def rdesc : DeviceDesc :=
  { name := "platroot", compatible := [], mmio := [], irq := [] }

/-- The handle of the first inserted node. -/
def id00 : DeviceId := { index := 0, generation := 0 }

/-- A one-node tree holding `vdesc` at the root. -/
def c2tree : DeviceTree := (treeInsert DeviceTree.new none vdesc).1

/-- State with the `vdesc` node bound to driver badge 100. -/
def c2state : UState := { initState cfg0 0 with tree := c2tree, pids := [(100, id00)] }

/-- RawBlock descriptor under `virtio0`. -/
def rawBlkDesc : LogicDeviceDesc :=
  { parent_name := "virtio0", dev_type := .rawBlock pm0, badge := none }

/-- Block (partition) descriptor under `disk0`. -/
def partDesc : LogicDeviceDesc :=
  { parent_name := "disk0", dev_type := .block pm0, badge := none }

/-- Net descriptor. -/
def netDesc0 : LogicDeviceDesc :=
  { parent_name := "eth", dev_type := .net, badge := none }

/-- Registry with disk0 (RawBlock), disk0p1 (Block), net0 (Net) — the
spec's QUERY scenario — over an empty physical tree. -/
def c4state : UState :=
  { initState cfg0 0 with
    logical_devices :=
      [(1, (rawBlkDesc, 10, "disk0")), (2, (partDesc, 11, "disk0p1")),
        (3, (netDesc0, 12, "net0"))],
    next_logic_id := 4 }

/-- The spec's QUERY-by-dev_type payload. -/
def q4 : DeviceQuery := { name := none, compatible := [], dev_type := some (.block pm0) }

/-- Spawn oracle that always succeeds with pid 7. -/
def orcA : SpawnOracle := fun _ => .ok 7

/-- State reached from init by inserting the `vdesc` root (used for the
SCAN_PLATFORM claims; written as the exact `Reach.insertStep` successor so
reachability is definitional). -/
def c7state : UState :=
  { initState cfgBlk 0 with tree := (treeInsert (initState cfgBlk 0).tree none vdesc).1 }

/-- State with an unmatched root bound to driver badge 42, for the REPORT
counterexample. -/
def c3state : UState :=
  { initState cfgBlk 0 with
    tree := (treeInsert DeviceTree.new none rdesc).1,
    pids := [(42, id00)] }

/-- State whose hook table has one Type(Net) subscriber (endpoint cap 50).
No reachable state has a nonempty hook table; the claim quantifies over
previously registered hooks, so the counterexample exhibits one directly. -/
def hookState : UState := { initState cfg0 0 with hooks := [(.type .net, 50)] }

/-- A Net logic-device descriptor. -/
def netDesc : LogicDeviceDesc := { parent_name := "eth", dev_type := .net, badge := none }

/-- A Platform logic-device descriptor. -/
def platDesc : LogicDeviceDesc :=
  { parent_name := "soc", dev_type := .platform, badge := none }

/-! Formalizations of the claims as stated, for the claims the code
refutes. -/

/-- Claim C1 as stated: every previously registered hook whose target
matches the newly registered logic device receives a NOTIFY_HOOK
notification during `register_logic` (hence before the reply). -/
def claimC1 : Prop :=
  ∀ (s : UState) (desc : LogicDeviceDesc) (ep : Option Nat)
    (probe : Except Err (List LogicDeviceDesc)) (tgt : HookTarget) (cap : Nat)
    (entry : LogicDeviceDesc × Nat × String),
    (registerLogic s desc ep probe).2.1 = .ok () →
    (tgt, cap) ∈ s.hooks →
    newLogicEntry s desc ep probe = some entry →
    hookMatches tgt entry = true →
    Event.notifyHook cap ∈ (registerLogic s desc ep probe).2.2

/-- Claim C2 as stated: when a second `get_mmio` call resolves to the same
base address, it returns the cached slot and performs no kernel call. -/
def claimC2 : Prop :=
  ∀ (s : UState) (b1 i1 b2 i2 : Nat) (r1 r2 : Except Err Unit)
    (slot1 base sz slot2 base2 sz2 : Nat),
    (getMmio s b1 i1 r1).2.1 = .ok (slot1, base, sz) →
    (getMmio (getMmio s b1 i1 r1).1 b2 i2 r2).2.1 = .ok (slot2, base2, sz2) →
    base2 = base →
    slot2 = slot1 ∧ (getMmio (getMmio s b1 i1 r1).1 b2 i2 r2).2.2 = []

/-- Claim C3 as stated: REPORT, UPDATE and SCAN_PLATFORM handlers only
enqueue Ready nodes, and never spawn a driver inline — so the handlers emit
no spawn event. -/
def claimC3 : Prop :=
  (∀ (s : UState) (b : Nat) (descs : List DeviceDescNode) (orc : SpawnOracle)
    (fuel : Nat), (report s b descs orc fuel).2.2 = []) ∧
  (∀ (s : UState) (b : Nat) (compat : List String) (orc : SpawnOracle)
    (fuel : Nat), (update s b compat orc fuel).2.2 = []) ∧
  (∀ (s : UState) (orc : SpawnOracle) (fuel : Nat),
    (scanPlatform s orc fuel).2.2.1 = [])

/-- Claim C4 as stated, at its own concrete instance: with the registry
disk0 (RawBlock), disk0p1 (Block), net0 (Net), a query with dev_type
Some(Block) and no other filter returns exactly the list disk0p1. -/
def claimC4 : Prop :=
  ∀ fuel, queryOp c4state q4 fuel = ["disk0p1"]

/-- Claim C5 as stated, in its Platform clause: registering a Platform
logic device assigns the bare name platform, with no counter suffix. -/
def claimC5 : Prop :=
  ∀ (s : UState) (ep : Nat) (probe : Except Err (List LogicDeviceDesc))
    (desc : LogicDeviceDesc),
    desc.dev_type = .platform →
    (registerLogic s desc (some ep) probe).2.1 = .ok () →
    ∃ slotv, newLogicEntry s desc (some ep) probe = some (desc, slotv, "platform")

/-! Association-list lemmas. -/

theorem lookupA_eraseA_self {α : Type} (l : List (Nat × α)) (k : Nat) :
    lookupA (eraseA l k) k = none := by
  induction l with
  | nil => rfl
  | cons kv rest ih =>
    by_cases h : kv.1 = k
    · simpa [eraseA, h] using ih
    · simpa [eraseA, lookupA, h] using ih

theorem lookupA_eraseA_ne {α : Type} (l : List (Nat × α)) (k k' : Nat)
    (h : k' ≠ k) : lookupA (eraseA l k) k' = lookupA l k' := by
  induction l with
  | nil => rfl
  | cons kv rest ih =>
    have h' : ¬ k = k' := fun hh => h hh.symm
    by_cases h1 : kv.1 = k
    · simpa [eraseA, lookupA, h1, h'] using ih
    · by_cases h2 : kv.1 = k'
      · simp [eraseA, lookupA, h1, h2, h, h']
      · simpa [eraseA, lookupA, h1, h2] using ih

theorem lookupA_insertA_self {α : Type} (l : List (Nat × α)) (k : Nat) (v : α) :
    lookupA (insertA l k v) k = some v := by
  simp [insertA, lookupA]

theorem lookupA_insertA_ne {α : Type} (l : List (Nat × α)) (k : Nat) (v : α)
    (k' : Nat) (h : k' ≠ k) : lookupA (insertA l k v) k' = lookupA l k' := by
  have h' : ¬ k = k' := fun hh => h hh.symm
  simp only [insertA, lookupA, h', if_false]
  exact lookupA_eraseA_ne l k k' h

theorem lookupA_append_some {α : Type} (l1 l2 : List (Nat × α)) (k : Nat) (v : α)
    (h : lookupA l1 k = some v) : lookupA (l1 ++ l2) k = some v := by
  induction l1 with
  | nil => simp [lookupA] at h
  | cons kv rest ih =>
    by_cases h1 : kv.1 = k
    · simp [lookupA, h1] at h ⊢
      exact h
    · simp [lookupA, h1] at h ⊢
      exact ih h

theorem lookupA_append_none {α : Type} (l1 l2 : List (Nat × α)) (k : Nat)
    (h : lookupA l1 k = none) : lookupA (l1 ++ l2) k = lookupA l2 k := by
  induction l1 with
  | nil => rfl
  | cons kv rest ih =>
    by_cases h1 : kv.1 = k
    · simp [lookupA, h1] at h
    · simp [lookupA, h1] at h ⊢
      exact ih h

theorem lookupA_none_of_forall_ne {α : Type} (l : List (Nat × α)) (k : Nat)
    (h : ∀ kv ∈ l, kv.1 ≠ k) : lookupA l k = none := by
  induction l with
  | nil => rfl
  | cons kv rest ih =>
    have h1 : kv.1 ≠ k := h kv (by simp)
    simp only [lookupA, h1, if_false]
    exact ih (fun kv' hm => h kv' (by simp [hm]))

theorem lookupA_mem {α : Type} (l : List (Nat × α)) (k : Nat) (v : α)
    (h : lookupA l k = some v) : (k, v) ∈ l := by
  induction l with
  | nil => simp [lookupA] at h
  | cons kv rest ih =>
    obtain ⟨a, b⟩ := kv
    by_cases h1 : a = k
    · subst h1
      simp [lookupA] at h
      subst h
      exact List.mem_cons_self _ _
    · simp [lookupA, h1] at h
      exact List.mem_cons_of_mem _ (ih h)

/-! Claim C1: hook notifications during register_logic. -/

/-- C1 counterexample: with a registered Type(Net) hook present (endpoint
cap 50), registering a Net logic device sends no NOTIFY_HOOK at all —
`register_logic` contains no hook-firing code. -/
theorem C1_counterexample : ¬ claimC1 := by
  intro h
  have h2 := h hookState netDesc (some 3) (.ok []) (.type .net) 50
    (netDesc, 0, "net0") (by decide) (by decide) (by decide) (by decide)
  exact absurd h2 (by decide)

/-! Claim C2: get_mmio caching. -/

/-- C2 counterexample: two `get_mmio` calls by the same driver for the same
region (hence the same base address) return two different slots and the
second one still performs a kernel request — there is no cache. -/
theorem C2_counterexample : ¬ claimC2 := by
  intro h
  have h2 := h c2state 100 0 100 0 (.ok ()) (.ok ()) 0 4096 4096 1 4096 4096
    (by decide) (by decide) rfl
  exact absurd h2.1 (by decide)

/-- C2 as amended: every successful `get_mmio` call consumes the current
fresh CSpace slot, bumps the slot allocator, leaves `mmio_caps` untouched
and issues exactly one kernel capability request. -/
theorem C2_corrected : ∀ (s : UState) (b i : Nat) (r : Except Err Unit)
    (slot base sz : Nat),
    (getMmio s b i r).2.1 = .ok (slot, base, sz) →
    slot = s.next_slot ∧ (getMmio s b i r).1.next_slot = s.next_slot + 1 ∧
    (getMmio s b i r).1.mmio_caps = s.mmio_caps ∧
    (getMmio s b i r).2.2.length = 1 := by
  intro s b i r slot base sz h
  cases h1 : lookupA s.pids b with
  | none => simp [getMmio, h1] at h
  | some node_id =>
    cases h2 : getNode s.tree node_id with
    | none => simp [getMmio, h1, h2] at h
    | some node =>
      cases h3 : node.desc.mmio[i]? with
      | none => simp [getMmio, h1, h2, h3] at h
      | some region =>
        cases r with
        | error e => simp [getMmio, h1, h2, h3] at h
        | ok u =>
          simp [getMmio, h1, h2, h3] at h ⊢
          exact h.1.symm

/-- C2 witness at the concrete two-call scenario (the second call, from the
state the first call produced). -/
theorem C2_witness :
    1 = (getMmio c2state 100 0 (.ok ())).1.next_slot ∧
    (getMmio (getMmio c2state 100 0 (.ok ())).1 100 0 (.ok ())).1.next_slot =
      (getMmio c2state 100 0 (.ok ())).1.next_slot + 1 ∧
    (getMmio (getMmio c2state 100 0 (.ok ())).1 100 0 (.ok ())).1.mmio_caps =
      (getMmio c2state 100 0 (.ok ())).1.mmio_caps ∧
    (getMmio (getMmio c2state 100 0 (.ok ())).1 100 0 (.ok ())).2.2.length = 1 :=
  C2_corrected (getMmio c2state 100 0 (.ok ())).1 100 0 (.ok ()) 1 4096 4096
    (by decide)

/-! Claim C3: deferred versus inline driver spawning. -/

/-- C3 counterexample: a SCAN_PLATFORM over a Ready, manifest-matched node
emits the spawn inside the handler itself, refuting the no-inline-spawn
claim. -/
theorem C3_counterexample : ¬ claimC3 := by
  intro h
  exact absurd (h.2.2 c7state orcA 5) (by decide)

theorem startDriver_events_spawn (s : UState) (id : DeviceId) (orc : SpawnOracle)
    (k : Nat) : ∀ e ∈ (startDriver s id orc k).2.2, ∃ bin, e = Event.spawn bin := by
  unfold startDriver
  split
  · simp
  · split
    · simp
    · split
      · simp
      · split
        · split <;> simp
        · split <;> simp

theorem scanGo_events_spawn (orc : SpawnOracle) : ∀ (fuel : Nat)
    (queue : List DeviceId) (s : UState) (k : Nat),
    ∀ e ∈ (scanGo orc fuel queue s k).2.2.1, ∃ bin, e = Event.spawn bin := by
  intro fuel
  induction fuel with
  | zero => intro queue s k e he; simp [scanGo] at he
  | succ n ih =>
    intro queue s k e he
    cases queue with
    | nil => simp [scanGo] at he
    | cons q rest =>
      rw [scanGo] at he
      cases hg : getNode s.tree q with
      | none =>
        simp only [hg] at he
        exact ih rest s k e he
      | some node =>
        simp only [hg] at he
        by_cases hr : node.state = DeviceState.Ready
        · rw [if_pos hr] at he
          rcases hsd : startDriver s q orc k with ⟨s1, k1, evs1⟩
          rw [hsd] at he
          rcases hrec : scanGo orc n (rest ++ node.children) s1 k1 with
            ⟨s2, k2, evs2, comp⟩
          rw [hrec] at he
          simp at he
          rcases he with he1 | he2
          · have h4 := startDriver_events_spawn s q orc k e
            rw [hsd] at h4
            exact h4 he1
          · have h5 := ih (rest ++ node.children) s1 k1 e
            rw [hrec] at h5
            exact h5 he2
        · rw [if_neg hr] at he
          exact ih (rest ++ node.children) s k e he

theorem scanSub_events_spawn (s : UState) (start_id : DeviceId) (orc : SpawnOracle)
    (fuel : Nat) :
    ∀ e ∈ (scanSubtree s start_id orc fuel).2.2.1, ∃ bin, e = Event.spawn bin :=
  scanGo_events_spawn orc fuel [start_id] s 0

/-- C3 as amended: the REPORT, UPDATE and SCAN_PLATFORM handlers run
`scan_subtree` inline and the only events they emit are the driver spawns
performed inside the handler (there is no spawn queue); concretely, a
REPORT of a matched virtio node spawns its driver during the handler. -/
theorem C3_corrected :
    (∀ (s : UState) (b : Nat) (descs : List DeviceDescNode) (orc : SpawnOracle)
      (fuel : Nat), ∀ e ∈ (report s b descs orc fuel).2.2, ∃ bin, e = Event.spawn bin) ∧
    (∀ (s : UState) (b : Nat) (compat : List String) (orc : SpawnOracle)
      (fuel : Nat), ∀ e ∈ (update s b compat orc fuel).2.2, ∃ bin, e = Event.spawn bin) ∧
    (∀ (s : UState) (orc : SpawnOracle) (fuel : Nat),
      ∀ e ∈ (scanPlatform s orc fuel).2.2.1, ∃ bin, e = Event.spawn bin) ∧
    (report c3state 42 [{ parent := usizeMax, desc := vdesc }] orcA 5).2.2 =
      [Event.spawn "blk"] := by
  refine ⟨?_, ?_, ?_, by decide⟩
  · intro s b descs orc fuel e he
    unfold report at he
    rcases h1 : lookupA s.pids b with _ | node_id
    · simp only [h1] at he; simp at he
    · simp only [h1] at he
      rcases h2 : mountSubtree s.tree node_id descs with ⟨t', r⟩
      simp only [h2] at he
      cases r with
      | error e2 => simp at he
      | ok u =>
        rcases h3 : scanSubtree { s with tree := t' } node_id orc fuel with
          ⟨s2, k2, evs, comp⟩
        simp only [h3] at he
        have h4 := scanSub_events_spawn { s with tree := t' } node_id orc fuel e
        rw [h3] at h4
        exact h4 he
  · intro s b compat orc fuel e he
    unfold update at he
    rcases h1 : lookupA s.pids b with _ | node_id
    · simp only [h1] at he; simp at he
    · simp only [h1] at he
      rcases h2 : modifyNode s.tree node_id
          (fun n => { n with desc := { n.desc with compatible := compat },
                             state := .Ready }) with _ | t'
      · simp only [h2] at he; simp at he
      · simp only [h2] at he
        rcases h3 : scanSubtree { s with pids := eraseA s.pids b, tree := t' }
            node_id orc fuel with ⟨s3, k3, evs, comp⟩
        simp only [h3] at he
        have h4 := scanSub_events_spawn { s with pids := eraseA s.pids b, tree := t' }
          node_id orc fuel e
        rw [h3] at h4
        exact h4 he
  · intro s orc fuel e he
    unfold scanPlatform at he
    rcases h1 : s.tree.root with _ | root
    · simp only [h1] at he; simp at he
    · simp only [h1] at he
      exact scanSub_events_spawn s root orc fuel e he

/-- C3 witness: the inline spawn event of the concrete REPORT run is indeed
a spawn event. -/
theorem C3_witness : ∃ bin, Event.spawn "blk" = Event.spawn bin :=
  C3_corrected.1 c3state 42 [{ parent := usizeMax, desc := vdesc }] orcA 5
    (Event.spawn "blk") (by decide)

/-! Claim C4: query filter semantics. -/

/-- C4 counterexample: the dev_type filter is ignored; the Block-only query
over the three-entry registry returns all three assigned names. -/
theorem C4_counterexample : ¬ claimC4 := by
  intro h
  exact absurd (h 5) (by decide)

theorem queryRec_compat_only (t : DeviceTree) (q q' : DeviceQuery)
    (h : q.compatible = q'.compatible) :
    ∀ (fuel : Nat) (id : DeviceId), queryRec t q fuel id = queryRec t q' fuel id := by
  intro fuel
  induction fuel with
  | zero => intro id; rfl
  | succ n ih =>
    intro id
    rw [queryRec, queryRec]
    cases hg : getNode t id with
    | none => rfl
    | some node => simp only [h, ih]

/-- C4 as amended: `query` reads only the `compatible` field of the query
(the `name` and `dev_type` filters are ignored), and on the spec's
three-entry registry the Block-only query returns all three assigned names
in registry order. -/
theorem C4_corrected :
    (∀ (s : UState) (q q' : DeviceQuery) (fuel : Nat),
      q.compatible = q'.compatible → queryOp s q fuel = queryOp s q' fuel) ∧
    (∀ fuel, queryOp c4state q4 fuel = ["disk0", "disk0p1", "net0"]) := by
  constructor
  · intro s q q' fuel h
    unfold queryOp
    rw [h]
    cases hr : s.tree.root with
    | none => rfl
    | some root => simp only [queryRec_compat_only s.tree q q' h fuel root]
  · intro fuel
    rfl

/-- C4 witness: a query differing only in the ignored name and dev_type
fields produces the same answer. -/
theorem C4_witness :
    queryOp c4state { name := some "zz", compatible := [], dev_type := none } 3 =
      queryOp c4state q4 3 :=
  C4_corrected.1 c4state _ q4 3 rfl

/-! Claim C5: assigned-name computation. -/

/-- C5 counterexample: registering a Platform logic device from the initial
state yields the assigned name platform0, not the bare platform. -/
theorem C5_counterexample : ¬ claimC5 := by
  intro h
  rcases h (initState cfg0 0) 3 (.ok []) platDesc rfl (by decide) with ⟨slotv, hv⟩
  have hv2 : newLogicEntry (initState cfg0 0) platDesc (some 3) (.ok []) =
      some (platDesc, 0, "platform0") := by decide
  rw [hv2] at hv
  simp at hv

theorem lookupA_snoc_fresh {α : Type} (l : List (Nat × α)) (k : Nat) (v : α)
    (h : ∀ kv ∈ l, kv.1 ≠ k) : lookupA (l ++ [(k, v)]) k = some v := by
  rw [lookupA_append_none _ _ _ (lookupA_none_of_forall_ne l k h)]
  simp [lookupA]

theorem addPartitions_lookupA (l : List LogicDeviceDesc) : ∀ (s : UState)
    (key : Nat) (v : LogicDeviceDesc × Nat × String),
    lookupA s.logical_devices key = some v →
    lookupA (addPartitions s l).logical_devices key = some v := by
  induction l with
  | nil => intro s key v h; exact h
  | cons p rest ih =>
    intro s key v h
    simp only [addPartitions]
    apply ih
    exact lookupA_append_some _ _ _ _ h

theorem addPartitions_ctr (l : List LogicDeviceDesc) : ∀ (s : UState)
    (k : CounterKind), ctr (addPartitions s l) k = ctr s k := by
  induction l with
  | nil => intro s k; rfl
  | cons p rest ih =>
    intro s k
    simp only [addPartitions]
    rw [ih]
    cases k <;> rfl

/-- C5 as amended: a successful `register_logic` records the new entry under
the pre-call `next_logic_id` with the fresh endpoint slot and the name given
by the per-variant rule (with `platform{N}` carrying a counter, and no
`Volume`/`Timer` variants existing), every name counter is monotone, and the
counter belonging to the registered variant increments by exactly one (so
counter values are never reused). -/
theorem C5_corrected : ∀ (s : UState) (desc : LogicDeviceDesc) (ep : Nat)
    (probe : Except Err (List LogicDeviceDesc)),
    (∀ kv ∈ s.logical_devices, kv.1 ≠ s.next_logic_id) →
    (registerLogic s desc (some ep) probe).2.1 = .ok () →
    newLogicEntry s desc (some ep) probe =
      some (desc, s.next_slot, specAssignedName s desc) ∧
    (∀ k, ctr s k ≤ ctr (registerLogic s desc (some ep) probe).1 k) ∧
    (∀ ck, counterKindOf desc.dev_type = some ck →
      ctr (registerLogic s desc (some ep) probe).1 ck = ctr s ck + 1) := by
  intro s desc ep probe hkeys hok
  cases hdt : desc.dev_type with
  | rawBlock meta =>
    cases probe with
    | error e => simp [registerLogic, assignNameAndCount, hdt] at hok
    | ok parts =>
      refine ⟨?_, ?_, ?_⟩
      · simp only [newLogicEntry, registerLogic, assignNameAndCount, hdt,
          specAssignedName]
        exact addPartitions_lookupA parts _ _ _ (lookupA_snoc_fresh _ _ _ hkeys)
      · intro k
        simp only [registerLogic, assignNameAndCount, hdt]
        rw [addPartitions_ctr]
        cases k <;> simp [ctr]
      · intro ck hck
        simp only [counterKindOf, hdt] at hck
        cases hck
        simp only [registerLogic, assignNameAndCount, hdt]
        rw [addPartitions_ctr]
        simp [ctr]
  | block meta =>
    refine ⟨?_, ?_, ?_⟩
    · simp only [newLogicEntry, registerLogic, assignNameAndCount, hdt,
        specAssignedName]
      exact lookupA_snoc_fresh _ _ _ hkeys
    · intro k
      simp only [registerLogic, assignNameAndCount, hdt]
      cases k <;> simp [ctr]
    · intro ck hck
      simp [counterKindOf, hdt] at hck
  | net =>
    refine ⟨?_, ?_, ?_⟩
    · simp only [newLogicEntry, registerLogic, assignNameAndCount, hdt,
        specAssignedName]
      exact lookupA_snoc_fresh _ _ _ hkeys
    · intro k
      simp only [registerLogic, assignNameAndCount, hdt]
      cases k <;> simp [ctr]
    · intro ck hck
      simp only [counterKindOf, hdt] at hck
      cases hck
      simp [registerLogic, assignNameAndCount, hdt, ctr]
  | fb =>
    refine ⟨?_, ?_, ?_⟩
    · simp only [newLogicEntry, registerLogic, assignNameAndCount, hdt,
        specAssignedName]
      exact lookupA_snoc_fresh _ _ _ hkeys
    · intro k
      simp only [registerLogic, assignNameAndCount, hdt]
      cases k <;> simp [ctr]
    · intro ck hck
      simp only [counterKindOf, hdt] at hck
      cases hck
      simp [registerLogic, assignNameAndCount, hdt, ctr]
  | uart =>
    refine ⟨?_, ?_, ?_⟩
    · simp only [newLogicEntry, registerLogic, assignNameAndCount, hdt,
        specAssignedName]
      exact lookupA_snoc_fresh _ _ _ hkeys
    · intro k
      simp only [registerLogic, assignNameAndCount, hdt]
      cases k <;> simp [ctr]
    · intro ck hck
      simp only [counterKindOf, hdt] at hck
      cases hck
      simp [registerLogic, assignNameAndCount, hdt, ctr]
  | input =>
    refine ⟨?_, ?_, ?_⟩
    · simp only [newLogicEntry, registerLogic, assignNameAndCount, hdt,
        specAssignedName]
      exact lookupA_snoc_fresh _ _ _ hkeys
    · intro k
      simp only [registerLogic, assignNameAndCount, hdt]
      cases k <;> simp [ctr]
    · intro ck hck
      simp only [counterKindOf, hdt] at hck
      cases hck
      simp [registerLogic, assignNameAndCount, hdt, ctr]
  | gpio =>
    refine ⟨?_, ?_, ?_⟩
    · simp only [newLogicEntry, registerLogic, assignNameAndCount, hdt,
        specAssignedName]
      exact lookupA_snoc_fresh _ _ _ hkeys
    · intro k
      simp only [registerLogic, assignNameAndCount, hdt]
      cases k <;> simp [ctr]
    · intro ck hck
      simp only [counterKindOf, hdt] at hck
      cases hck
      simp [registerLogic, assignNameAndCount, hdt, ctr]
  | platform =>
    refine ⟨?_, ?_, ?_⟩
    · simp only [newLogicEntry, registerLogic, assignNameAndCount, hdt,
        specAssignedName]
      exact lookupA_snoc_fresh _ _ _ hkeys
    · intro k
      simp only [registerLogic, assignNameAndCount, hdt]
      cases k <;> simp [ctr]
    · intro ck hck
      simp only [counterKindOf, hdt] at hck
      cases hck
      simp [registerLogic, assignNameAndCount, hdt, ctr]
  | thermal =>
    refine ⟨?_, ?_, ?_⟩
    · simp only [newLogicEntry, registerLogic, assignNameAndCount, hdt,
        specAssignedName]
      exact lookupA_snoc_fresh _ _ _ hkeys
    · intro k
      simp only [registerLogic, assignNameAndCount, hdt]
      cases k <;> simp [ctr]
    · intro ck hck
      simp only [counterKindOf, hdt] at hck
      cases hck
      simp [registerLogic, assignNameAndCount, hdt, ctr]
  | battery =>
    refine ⟨?_, ?_, ?_⟩
    · simp only [newLogicEntry, registerLogic, assignNameAndCount, hdt,
        specAssignedName]
      exact lookupA_snoc_fresh _ _ _ hkeys
    · intro k
      simp only [registerLogic, assignNameAndCount, hdt]
      cases k <;> simp [ctr]
    · intro ck hck
      simp only [counterKindOf, hdt] at hck
      cases hck
      simp [registerLogic, assignNameAndCount, hdt, ctr]

/-- C5 witness: registering a Net device from the initial state (allocator
at slot 5) stores entry (netDesc, 5, net0). -/
theorem C5_witness :
    newLogicEntry (initState cfg0 5) netDesc (some 3) (.ok []) =
      some (netDesc, 5, specAssignedName (initState cfg0 5) netDesc) :=
  (C5_corrected (initState cfg0 5) netDesc 3 (.ok []) (by simp [initState]) (by decide)).1

/-! Arena lemmas. -/

theorem getNode_some_elim (t : DeviceTree) (id : DeviceId) (n : DeviceNode)
    (h : getNode t id = some n) :
    t.nodes[id.index]? = some (some n) ∧ n.id.generation = id.generation := by
  unfold getNode at h
  cases hx : t.nodes[id.index]? with
  | none => rw [hx] at h; simp at h
  | some ov =>
    cases ov with
    | none => rw [hx] at h; simp at h
    | some n' =>
      rw [hx] at h
      simp only [Option.ite_none_right_eq_some, Option.some.injEq] at h
      obtain ⟨hg, hn⟩ := h
      subst hn
      exact ⟨rfl, hg⟩

theorem getNode_intro (t : DeviceTree) (id : DeviceId) (n : DeviceNode)
    (h1 : t.nodes[id.index]? = some (some n))
    (h2 : n.id.generation = id.generation) : getNode t id = some n := by
  unfold getNode
  rw [h1]
  simp [h2]

theorem getNode_index_lt (t : DeviceTree) (id : DeviceId) (n : DeviceNode)
    (h : getNode t id = some n) : id.index < t.nodes.length := by
  have hx := (getNode_some_elim t id n h).1
  by_cases hl : id.index < t.nodes.length
  · exact hl
  · rw [List.getElem?_eq_none (Nat.le_of_not_lt hl)] at hx
    cases hx

theorem getNode_same_index (t : DeviceTree) (id1 id2 : DeviceId)
    (n1 n2 : DeviceNode) (h1 : getNode t id1 = some n1)
    (h2 : getNode t id2 = some n2) (hidx : id1.index = id2.index) :
    id1 = id2 ∧ n1 = n2 := by
  obtain ⟨hx1, hg1⟩ := getNode_some_elim t id1 n1 h1
  obtain ⟨hx2, hg2⟩ := getNode_some_elim t id2 n2 h2
  rw [hidx, hx2] at hx1
  have hn : n2 = n1 := by simpa using hx1
  subst hn
  have hgen : id1.generation = id2.generation := by rw [← hg1, hg2]
  obtain ⟨i1, g1⟩ := id1
  obtain ⟨i2, g2⟩ := id2
  simp_all

theorem modifyNode_some_elim (t : DeviceTree) (id : DeviceId)
    (f : DeviceNode → DeviceNode) (t' : DeviceTree)
    (h : modifyNode t id f = some t') :
    ∃ n, t.generations[id.index]? = some id.generation ∧
      t.nodes[id.index]? = some (some n) ∧
      t' = { t with nodes := t.nodes.set id.index (some (f n)) } := by
  unfold modifyNode at h
  cases hg : t.generations[id.index]? with
  | none => rw [hg] at h; simp at h
  | some g =>
    rw [hg] at h
    by_cases hgen : g = id.generation
    · subst hgen
      simp only [ne_eq, not_true_eq_false, if_false] at h
      cases hx : t.nodes[id.index]? with
      | none => rw [hx] at h; simp at h
      | some ov =>
        cases ov with
        | none => rw [hx] at h; simp at h
        | some n =>
          rw [hx] at h
          simp only [Option.some.injEq] at h
          exact ⟨n, rfl, rfl, h.symm⟩
    · simp only [ne_eq, hgen, if_true] at h
      simp at h

theorem modifyNode_getNode (t : DeviceTree) (id : DeviceId)
    (f : DeviceNode → DeviceNode) (t' : DeviceTree)
    (hf : ∀ n, (f n).id = n.id) (h : modifyNode t id f = some t')
    (id2 : DeviceId) :
    getNode t' id2 =
      if id2.index = id.index then (getNode t id2).map f else getNode t id2 := by
  obtain ⟨n, hg, hx, ht'⟩ := modifyNode_some_elim t id f t' h
  subst ht'
  have hlt : id.index < t.nodes.length := by
    by_cases hl : id.index < t.nodes.length
    · exact hl
    · rw [List.getElem?_eq_none (Nat.le_of_not_lt hl)] at hx
      cases hx
  by_cases hi : id2.index = id.index
  · rw [if_pos hi]
    unfold getNode
    simp only [hi]
    rw [List.getElem?_set_self hlt, hx]
    have hfn : (f n).id.generation = n.id.generation := by rw [hf n]
    by_cases hc : n.id.generation = id2.generation
    · simp [hfn, hc]
    · simp [hfn, hc]
  · rw [if_neg hi]
    unfold getNode
    rw [List.getElem?_set_ne (fun hh => hi hh.symm)]

theorem modifyNode_wf (t : DeviceTree) (id : DeviceId)
    (f : DeviceNode → DeviceNode) (t' : DeviceTree)
    (hf : ∀ n, (f n).id = n.id) (h : modifyNode t id f = some t')
    (hwf : treeWF t) : treeWF t' := by
  obtain ⟨n, hg, hx, ht'⟩ := modifyNode_some_elim t id f t' h
  subst ht'
  constructor
  · simpa using hwf.1
  · intro idx m hm
    simp only at hm
    by_cases hi : idx = id.index
    · have hlt : id.index < t.nodes.length := by
        by_cases hl : id.index < t.nodes.length
        · exact hl
        · rw [List.getElem?_eq_none (Nat.le_of_not_lt hl)] at hx
          cases hx
      rw [hi, List.getElem?_set_self hlt] at hm
      have hm2 : m = f n := by
        have := hm
        simp at this
        exact this.symm
      subst hm2
      have hcoh := hwf.2 id.index n hx
      rw [hi, hf n]
      simpa using hcoh
    · rw [List.getElem?_set_ne (fun hh => hi hh.symm)] at hm
      simpa using hwf.2 idx m hm

theorem modifyNode_free (t : DeviceTree) (id : DeviceId)
    (f : DeviceNode → DeviceNode) (t' : DeviceTree)
    (h : modifyNode t id f = some t') : t'.free_head = t.free_head := by
  obtain ⟨n, hg, hx, ht'⟩ := modifyNode_some_elim t id f t' h
  subst ht'
  rfl

theorem modifyNode_root (t : DeviceTree) (id : DeviceId)
    (f : DeviceNode → DeviceNode) (t' : DeviceTree)
    (h : modifyNode t id f = some t') : t'.root = t.root := by
  obtain ⟨n, hg, hx, ht'⟩ := modifyNode_some_elim t id f t' h
  subst ht'
  rfl

theorem modifyNode_generations (t : DeviceTree) (id : DeviceId)
    (f : DeviceNode → DeviceNode) (t' : DeviceTree)
    (h : modifyNode t id f = some t') : t'.generations = t.generations := by
  obtain ⟨n, hg, hx, ht'⟩ := modifyNode_some_elim t id f t' h
  subst ht'
  rfl

theorem modifyNode_succeeds (t : DeviceTree) (id : DeviceId)
    (f : DeviceNode → DeviceNode) (n : DeviceNode) (hwf : treeWF t)
    (hn : getNode t id = some n) : ∃ t', modifyNode t id f = some t' := by
  obtain ⟨hx, hg⟩ := getNode_some_elim t id n hn
  have hcoh := hwf.2 id.index n hx
  unfold modifyNode
  rw [hcoh, hg]
  simp [hx]

theorem treeInsert_fail (t : DeviceTree) (pid : DeviceId) (d : DeviceDesc)
    (h : treeContains t pid = false) :
    treeInsert t (some pid) d = (t, .error .invalidArgs) := by
  simp [treeInsert, h]


theorem treeInsert_spec (t : DeviceTree) (p : Option DeviceId) (d : DeviceDesc)
    (hfree : t.free_head = none)
    (hp : p = none ∨ ∃ pid pn, p = some pid ∧ getNode t pid = some pn) :
    ∃ newid n',
      (treeInsert t p d).2 = .ok newid ∧
      newid.index = t.nodes.length ∧
      (treeInsert t p d).1.free_head = none ∧
      (treeInsert t p d).1.generations = t.generations ++ [0] ∧
      getNode (treeInsert t p d).1 newid = some n' ∧
      n'.desc = d ∧ n'.state = .Ready ∧ n'.parent = p ∧ n'.id = newid ∧
      getNode t newid = none ∧
      (∀ id2 n2, getNode t id2 = some n2 →
        ∃ n2', getNode (treeInsert t p d).1 id2 = some n2' ∧
          n2'.id = n2.id ∧ n2'.desc = n2.desc ∧ n2'.state = n2.state ∧
          n2'.parent = n2.parent ∧
          (n2'.children = n2.children ∨ n2'.children = n2.children ++ [newid])) ∧
      (∀ pid, p = some pid →
        ∃ pn', getNode (treeInsert t p d).1 pid = some pn' ∧ newid ∈ pn'.children) := by
  have hlen1 : t.nodes.length < (t.nodes ++ [none]).length := by simp
  rcases hp with hp | ⟨pid, pn, hp, hpn⟩
  · subst hp
    have h1 : (treeInsert t none d).2 =
        .ok ⟨t.nodes.length, (t.generations ++ [0])[t.nodes.length]?.getD 0⟩ := by
      simp only [treeInsert, treeInsertGo, hfree, treeInsertAt]
    have h2 : (treeInsert t none d).1.free_head = none := by
      simp only [treeInsert, treeInsertGo, hfree, treeInsertAt]
      split <;> rfl
    have h3 : (treeInsert t none d).1.generations = t.generations ++ [0] := by
      simp only [treeInsert, treeInsertGo, hfree, treeInsertAt]
      split <;> rfl
    have hnodes : (treeInsert t none d).1.nodes =
        (t.nodes ++ [none]).set t.nodes.length (some
          { parent := none, children := [],
            id := ⟨t.nodes.length, (t.generations ++ [0])[t.nodes.length]?.getD 0⟩,
            desc := d, state := .Ready, logical_devices := [] }) := by
      simp only [treeInsert, treeInsertGo, hfree, treeInsertAt]
      split <;> rfl
    refine ⟨⟨t.nodes.length, (t.generations ++ [0])[t.nodes.length]?.getD 0⟩,
      { parent := none, children := [],
        id := ⟨t.nodes.length, (t.generations ++ [0])[t.nodes.length]?.getD 0⟩,
        desc := d, state := .Ready, logical_devices := [] },
      h1, rfl, h2, h3, ?_, rfl, rfl, rfl, rfl, ?_, ?_, ?_⟩
    · apply getNode_intro
      · rw [hnodes]
        rw [List.getElem?_set_self hlen1]
      · rfl
    · unfold getNode
      rw [List.getElem?_eq_none (Nat.le_refl t.nodes.length)]
    · intro id2 n2 hn2
      obtain ⟨hx2, hg2⟩ := getNode_some_elim t id2 n2 hn2
      have hlt2 : id2.index < t.nodes.length := getNode_index_lt t id2 n2 hn2
      refine ⟨n2, ?_, rfl, rfl, rfl, rfl, Or.inl rfl⟩
      apply getNode_intro _ _ _ ?_ hg2
      rw [hnodes]
      rw [List.getElem?_set_ne (Nat.ne_of_lt hlt2).symm,
        List.getElem?_append_left hlt2]
      exact hx2
    · intro pid hpid
      cases hpid
  · subst hp
    have hcont : treeContains t pid = true := by
      unfold treeContains
      rw [hpn]
      rfl
    obtain ⟨hxp, hgp⟩ := getNode_some_elim t pid pn hpn
    have hltp : pid.index < t.nodes.length := getNode_index_lt t pid pn hpn
    have ht2p : ((t.nodes ++ [none]).set t.nodes.length (some
        { parent := some pid, children := [],
          id := ⟨t.nodes.length, (t.generations ++ [0])[t.nodes.length]?.getD 0⟩,
          desc := d, state := DeviceState.Ready,
          logical_devices := [] }))[pid.index]? = some (some pn) := by
      rw [List.getElem?_set_ne (Nat.ne_of_lt hltp).symm,
        List.getElem?_append_left hltp]
      exact hxp
    have h1 : (treeInsert t (some pid) d).2 =
        .ok ⟨t.nodes.length, (t.generations ++ [0])[t.nodes.length]?.getD 0⟩ := by
      simp only [treeInsert, hcont, not_true, Bool.not_true, treeInsertGo, hfree,
        treeInsertAt]
      rw [ht2p]
      simp [hgp]
    have h2 : (treeInsert t (some pid) d).1.free_head = none := by
      simp only [treeInsert, hcont, not_true, Bool.not_true, treeInsertGo, hfree,
        treeInsertAt]
      rw [ht2p]
      simp [hgp]
    have h3 : (treeInsert t (some pid) d).1.generations = t.generations ++ [0] := by
      simp only [treeInsert, hcont, not_true, Bool.not_true, treeInsertGo, hfree,
        treeInsertAt]
      rw [ht2p]
      simp [hgp]
    have hnodes : (treeInsert t (some pid) d).1.nodes =
        (t.nodes ++ [(some
          { parent := some pid, children := [],
            id := ⟨t.nodes.length, (t.generations ++ [0])[t.nodes.length]?.getD 0⟩,
            desc := d, state := .Ready,
            logical_devices := [] } : Option DeviceNode)]).set pid.index
          (some { pn with children := pn.children ++
            [(⟨t.nodes.length, (t.generations ++ [0])[t.nodes.length]?.getD 0⟩ :
              DeviceId)] }) := by
      simp only [treeInsert, hcont, not_true, Bool.not_true, treeInsertGo, hfree,
        treeInsertAt]
      rw [ht2p]
      simp [hgp]
    have hlt1 : pid.index < (t.nodes ++ [(none : Option DeviceNode)]).length :=
      Nat.lt_trans hltp hlen1
    have hlen2 : ∀ (a : Option DeviceNode),
        pid.index < (t.nodes ++ [a]).length := by
      intro a
      simpa using Nat.lt_succ_of_lt hltp
    refine ⟨⟨t.nodes.length, (t.generations ++ [0])[t.nodes.length]?.getD 0⟩,
      { parent := some pid, children := [],
        id := ⟨t.nodes.length, (t.generations ++ [0])[t.nodes.length]?.getD 0⟩,
        desc := d, state := .Ready, logical_devices := [] },
      h1, rfl, h2, h3, ?_, rfl, rfl, rfl, rfl, ?_, ?_, ?_⟩
    · apply getNode_intro
      · rw [hnodes]
        rw [List.getElem?_set_ne (Nat.ne_of_lt hltp),
          List.getElem?_concat_length]
      · rfl
    · unfold getNode
      rw [List.getElem?_eq_none (Nat.le_refl t.nodes.length)]
    · intro id2 n2 hn2
      obtain ⟨hx2, hg2⟩ := getNode_some_elim t id2 n2 hn2
      have hlt2 : id2.index < t.nodes.length := getNode_index_lt t id2 n2 hn2
      by_cases hi : id2.index = pid.index
      · obtain ⟨hid, hn⟩ := getNode_same_index t id2 pid n2 pn hn2 hpn hi
        subst hid
        subst hn
        refine ⟨{ n2 with children := n2.children ++
          [(⟨t.nodes.length, (t.generations ++ [0])[t.nodes.length]?.getD 0⟩ :
            DeviceId)] }, ?_, rfl, rfl, rfl, rfl, Or.inr rfl⟩
        apply getNode_intro
        · rw [hnodes]
          rw [List.getElem?_set_self (hlen2 _)]
        · exact hg2
      · refine ⟨n2, ?_, rfl, rfl, rfl, rfl, Or.inl rfl⟩
        apply getNode_intro
        · rw [hnodes]
          rw [List.getElem?_set_ne (fun hh => hi hh.symm),
            List.getElem?_append_left hlt2]
          exact hx2
        · exact hg2
    · intro pid2 hpid2
      have hp2 : pid2 = pid := by
        cases hpid2
        rfl
      subst hp2
      refine ⟨{ pn with children := pn.children ++
        [(⟨t.nodes.length, (t.generations ++ [0])[t.nodes.length]?.getD 0⟩ :
          DeviceId)] }, ?_, by simp⟩
      apply getNode_intro
      · rw [hnodes]
        rw [List.getElem?_set_self (hlen2 _)]
      · exact hgp


theorem treeInsert_wf (t : DeviceTree) (p : Option DeviceId) (d : DeviceDesc)
    (hfree : t.free_head = none) (hwf : treeWF t) : treeWF (treeInsert t p d).1 := by
  have hlen1 : t.nodes.length < (t.nodes ++ [none]).length := by simp
  have hcoh0 : (t.generations ++ [0])[t.nodes.length]? = some 0 := by
    rw [← hwf.1]
    exact List.getElem?_concat_length _ _
  rcases hp : p with _ | pid
  · have h3 : (treeInsert t none d).1.generations = t.generations ++ [0] := by
      simp only [treeInsert, treeInsertGo, hfree, treeInsertAt]
      split <;> rfl
    have hnodes : (treeInsert t none d).1.nodes =
        (t.nodes ++ [none]).set t.nodes.length (some
          { parent := none, children := [],
            id := ⟨t.nodes.length, (t.generations ++ [0])[t.nodes.length]?.getD 0⟩,
            desc := d, state := .Ready, logical_devices := [] }) := by
      simp only [treeInsert, treeInsertGo, hfree, treeInsertAt]
      split <;> rfl
    constructor
    · rw [h3, hnodes]
      simp [hwf.1]
    · intro idx n hn
      rw [hnodes] at hn
      rw [h3]
      by_cases hi : idx = t.nodes.length
      · subst hi
        rw [List.getElem?_set_self hlen1] at hn
        have hn2 := hn
        simp only [Option.some.injEq] at hn2
        rw [← hn2]
        simp only [hcoh0]
        simp [hcoh0]
      · rw [List.getElem?_set_ne (fun hh => hi hh.symm)] at hn
        have hidx : idx < t.nodes.length := by
          by_cases hl : idx < (t.nodes ++ [none]).length
          · have : idx ≤ t.nodes.length := by
              simpa using Nat.lt_succ_iff.mp (by simpa using hl)
            omega
          · rw [List.getElem?_eq_none (Nat.le_of_not_lt hl)] at hn
            cases hn
        rw [List.getElem?_append_left hidx] at hn
        rw [List.getElem?_append_left (by rw [hwf.1]; exact hidx)]
        exact hwf.2 idx n hn
  · cases hc : treeContains t pid with
    | false =>
      rw [treeInsert_fail t pid d hc]
      exact hwf
    | true =>
      have hpn : ∃ pn, getNode t pid = some pn := by
        unfold treeContains at hc
        cases hg : getNode t pid with
        | none => rw [hg] at hc; cases hc
        | some pn => exact ⟨pn, rfl⟩
      obtain ⟨pn, hpn⟩ := hpn
      obtain ⟨hxp, hgp⟩ := getNode_some_elim t pid pn hpn
      have hltp : pid.index < t.nodes.length := getNode_index_lt t pid pn hpn
      have ht2p : ((t.nodes ++ [none]).set t.nodes.length (some
          { parent := some pid, children := [],
            id := ⟨t.nodes.length, (t.generations ++ [0])[t.nodes.length]?.getD 0⟩,
            desc := d, state := DeviceState.Ready,
            logical_devices := [] }))[pid.index]? = some (some pn) := by
        rw [List.getElem?_set_ne (Nat.ne_of_lt hltp).symm,
          List.getElem?_append_left hltp]
        exact hxp
      have h3 : (treeInsert t (some pid) d).1.generations = t.generations ++ [0] := by
        simp only [treeInsert, hc, not_true, Bool.not_true, treeInsertGo, hfree,
          treeInsertAt]
        rw [ht2p]
        simp [hgp]
      have hnodes : (treeInsert t (some pid) d).1.nodes =
          (t.nodes ++ [(some
            { parent := some pid, children := [],
              id := ⟨t.nodes.length, (t.generations ++ [0])[t.nodes.length]?.getD 0⟩,
              desc := d, state := .Ready,
              logical_devices := [] } : Option DeviceNode)]).set pid.index
            (some { pn with children := pn.children ++
              [(⟨t.nodes.length, (t.generations ++ [0])[t.nodes.length]?.getD 0⟩ :
                DeviceId)] }) := by
        simp only [treeInsert, hc, not_true, Bool.not_true, treeInsertGo, hfree,
          treeInsertAt]
        rw [ht2p]
        simp [hgp]
      constructor
      · rw [h3, hnodes]
        simp [hwf.1]
      · intro idx n hn
        rw [hnodes] at hn
        rw [h3]
        by_cases hip : idx = pid.index
        · subst hip
          rw [List.getElem?_set_self (by simpa using Nat.lt_succ_of_lt hltp)] at hn
          have hn2 := hn
          simp only [Option.some.injEq] at hn2
          rw [← hn2]
          rw [List.getElem?_append_left (by rw [hwf.1]; exact hltp)]
          simpa using hwf.2 pid.index pn hxp
        · rw [List.getElem?_set_ne (fun hh => hip hh.symm)] at hn
          by_cases hi : idx = t.nodes.length
          · subst hi
            rw [List.getElem?_concat_length] at hn
            have hn2 := hn
            simp only [Option.some.injEq] at hn2
            rw [← hn2]
            simp [hcoh0]
          · have hidx : idx < t.nodes.length := by
              by_cases hl : idx < t.nodes.length + 1
              · omega
              · rw [List.getElem?_eq_none (by simpa using Nat.le_of_not_lt hl)] at hn
                cases hn
            rw [List.getElem?_append_left hidx] at hn
            rw [List.getElem?_append_left (by rw [hwf.1]; exact hidx)]
            exact hwf.2 idx n hn


theorem lookupA_eraseA_some {α : Type} (l : List (Nat × α)) (k k' : Nat) (v : α)
    (h : lookupA (eraseA l k) k' = some v) : lookupA l k' = some v ∧ k' ≠ k := by
  by_cases hk : k' = k
  · subst hk
    rw [lookupA_eraseA_self] at h
    cases h
  · rw [lookupA_eraseA_ne l k k' hk] at h
    exact ⟨h, hk⟩

theorem lookupA_insertA_some {α : Type} (l : List (Nat × α)) (k : Nat) (v : α)
    (k' : Nat) (w : α) (h : lookupA (insertA l k v) k' = some w) :
    (k' = k ∧ w = v) ∨ (k' ≠ k ∧ lookupA l k' = some w) := by
  by_cases hk : k' = k
  · subst hk
    rw [lookupA_insertA_self] at h
    exact Or.inl ⟨rfl, by simpa using h.symm⟩
  · rw [lookupA_insertA_ne l k v k' hk] at h
    exact Or.inr ⟨hk, h⟩

theorem startDriver_inv (s : UState) (nid : DeviceId) (orc : SpawnOracle) (k : Nat)
    (h : Inv s) : Inv (startDriver s nid orc k).1 := by
  unfold startDriver
  cases hg : getNode s.tree nid with
  | none => exact h
  | some node =>
    simp only
    by_cases hst : node.state ≠ DeviceState.Ready
    · rw [if_pos hst]
      exact h
    · rw [if_neg hst]
      have hready : node.state = DeviceState.Ready := by
        by_cases hx : node.state = DeviceState.Ready
        · exact hx
        · exact absurd hx hst
      cases hm : matchDriver s.config node.desc.name node.desc.compatible with
      | none => exact h
      | some bin =>
        simp only
        cases horc : orc k with
        | error e =>
          simp only
          cases hmod : modifyNode s.tree nid
              (fun n => { n with state := DeviceState.Error }) with
          | none => exact h
          | some t' =>
            simp only
            refine ⟨?_, ?_, ?_, h.2.2.2.1, h.2.2.2.2.1, h.2.2.2.2.2⟩
            · show t'.free_head = none
              rw [modifyNode_free s.tree nid
                (fun n => { n with state := DeviceState.Error }) t' hmod]
              exact h.1
            · show treeWF t'
              exact modifyNode_wf s.tree nid
                (fun n => { n with state := DeviceState.Error }) t'
                (fun n => rfl) hmod h.2.1
            · intro b id2 hb
              obtain ⟨n2, hn2, hrun⟩ := h.2.2.1 b id2 hb
              have hmg := modifyNode_getNode s.tree nid
                (fun n => { n with state := DeviceState.Error }) t'
                (fun n => rfl) hmod id2
              by_cases hi : id2.index = nid.index
              · obtain ⟨hid, hnn⟩ := getNode_same_index s.tree id2 nid n2 node hn2 hg hi
                rw [hnn] at hrun
                rw [hready] at hrun
                cases hrun
              · rw [if_neg hi] at hmg
                refine ⟨n2, ?_, hrun⟩
                show getNode t' id2 = some n2
                rw [hmg]
                exact hn2
        | ok pid =>
          simp only
          cases hmod : modifyNode s.tree nid
              (fun n => { n with state := DeviceState.Running }) with
          | none => exact h
          | some t' =>
            simp only
            have hmgid := modifyNode_getNode s.tree nid
              (fun n => { n with state := DeviceState.Running }) t'
              (fun n => rfl) hmod nid
            rw [if_pos rfl, hg] at hmgid
            refine ⟨?_, ?_, ?_, ?_, h.2.2.2.2.1, h.2.2.2.2.2⟩
            · show t'.free_head = none
              rw [modifyNode_free s.tree nid
                (fun n => { n with state := DeviceState.Running }) t' hmod]
              exact h.1
            · show treeWF t'
              exact modifyNode_wf s.tree nid
                (fun n => { n with state := DeviceState.Running }) t'
                (fun n => rfl) hmod h.2.1
            · intro b id2 hb
              rcases lookupA_insertA_some s.pids pid nid b id2 hb with
                ⟨hbp, hbid⟩ | ⟨hbne, hbold⟩
              · rw [hbid]
                refine ⟨{ node with state := DeviceState.Running }, ?_, rfl⟩
                show getNode t' nid = _
                rw [hmgid]
                rfl
              · obtain ⟨n2, hn2, hrun⟩ := h.2.2.1 b id2 hbold
                have hmg := modifyNode_getNode s.tree nid
                  (fun n => { n with state := DeviceState.Running }) t'
                  (fun n => rfl) hmod id2
                by_cases hi : id2.index = nid.index
                · obtain ⟨hid, hnn⟩ :=
                    getNode_same_index s.tree id2 nid n2 node hn2 hg hi
                  rw [hnn] at hrun
                  rw [hready] at hrun
                  cases hrun
                · rw [if_neg hi] at hmg
                  refine ⟨n2, ?_, hrun⟩
                  show getNode t' id2 = some n2
                  rw [hmg]
                  exact hn2
            · intro b1 b2 id0 hb1 hb2
              rcases lookupA_insertA_some s.pids pid nid b1 id0 hb1 with
                ⟨hb1p, hb1id⟩ | ⟨hb1ne, hb1old⟩ <;>
                rcases lookupA_insertA_some s.pids pid nid b2 id0 hb2 with
                  ⟨hb2p, hb2id⟩ | ⟨hb2ne, hb2old⟩
              · rw [hb1p, hb2p]
              · rw [hb1id] at hb2old
                obtain ⟨n0, hn0, hrun0⟩ := h.2.2.1 b2 nid hb2old
                rw [hg] at hn0
                have : n0 = node := by simpa using hn0.symm
                rw [this, hready] at hrun0
                cases hrun0
              · rw [hb2id] at hb1old
                obtain ⟨n0, hn0, hrun0⟩ := h.2.2.1 b1 nid hb1old
                rw [hg] at hn0
                have : n0 = node := by simpa using hn0.symm
                rw [this, hready] at hrun0
                cases hrun0
              · exact h.2.2.2.1 b1 b2 id0 hb1old hb2old

theorem scanGo_inv (orc : SpawnOracle) : ∀ (fuel : Nat) (queue : List DeviceId)
    (s : UState) (k : Nat), Inv s → Inv (scanGo orc fuel queue s k).1 := by
  intro fuel
  induction fuel with
  | zero =>
    intro queue s k h
    simp only [scanGo]
    exact h
  | succ n ih =>
    intro queue s k h
    cases queue with
    | nil =>
      simp only [scanGo]
      exact h
    | cons q rest =>
      rw [scanGo]
      cases hg : getNode s.tree q with
      | none =>
        simp only [hg]
        exact ih rest s k h
      | some node =>
        simp only [hg]
        by_cases hr : node.state = DeviceState.Ready
        · rw [if_pos hr]
          rcases hsd : startDriver s q orc k with ⟨s1, k1, evs1⟩
          have h1 : Inv s1 := by
            have h2 := startDriver_inv s q orc k h
            rw [hsd] at h2
            exact h2
          rcases hrec : scanGo orc n (rest ++ node.children) s1 k1 with
            ⟨s2, k2, evs2, comp⟩
          simp only [hsd, hrec]
          have h3 := ih (rest ++ node.children) s1 k1 h1
          rw [hrec] at h3
          exact h3
        · rw [if_neg hr]
          exact ih (rest ++ node.children) s k h

theorem treeInsert_inv (s : UState) (p : Option DeviceId) (d : DeviceDesc)
    (h : Inv s) : Inv { s with tree := (treeInsert s.tree p d).1 } := by
  have main : ∀ (hp : p = none ∨ ∃ pid pn, p = some pid ∧ getNode s.tree pid = some pn),
      Inv { s with tree := (treeInsert s.tree p d).1 } := by
    intro hp
    obtain ⟨newid, n', hok, hidx, hfree', hgens, hnew, hd, hstate, hpar, hid, hdangle,
      hframe, hlink⟩ := treeInsert_spec s.tree p d h.1 hp
    refine ⟨hfree', treeInsert_wf _ _ _ h.1 h.2.1, ?_, h.2.2.2.1, h.2.2.2.2.1,
      h.2.2.2.2.2⟩
    intro b id2 hb
    obtain ⟨n2, hn2, hrun⟩ := h.2.2.1 b id2 hb
    obtain ⟨n2', hn2', _, _, hst2, _, _⟩ := hframe id2 n2 hn2
    refine ⟨n2', hn2', ?_⟩
    rw [hst2]
    exact hrun
  cases p with
  | none => exact main (Or.inl rfl)
  | some pid =>
    cases hc : treeContains s.tree pid with
    | false =>
      rw [treeInsert_fail _ _ _ hc]
      exact h
    | true =>
      have hpn : ∃ pn, getNode s.tree pid = some pn := by
        unfold treeContains at hc
        cases hgx : getNode s.tree pid with
        | none => rw [hgx] at hc; cases hc
        | some pn => exact ⟨pn, rfl⟩
      obtain ⟨pn, hpn⟩ := hpn
      exact main (Or.inr ⟨pid, pn, rfl, hpn⟩)

theorem mountGo_inv (mp : DeviceId) : ∀ (nds : List DeviceDescNode) (s : UState)
    (t : DeviceTree) (map : List (Nat × DeviceId)) (i : Nat),
    Inv { s with tree := t } →
    Inv { s with tree := (mountGo t mp map i nds).1 } := by
  intro nds
  induction nds with
  | nil =>
    intro s t map i h
    simp only [mountGo]
    exact h
  | cons nd rest ih =>
    intro s t map i h
    rw [mountGo]
    by_cases hs : nd.parent = usizeMax
    · simp only [hs, if_true]
      rcases hins : treeInsert t (some mp) nd.desc with ⟨t', res⟩
      have h2 : Inv { s with tree := t' } := by
        have h3 := treeInsert_inv { s with tree := t } (some mp) nd.desc h
        rw [hins] at h3
        exact h3
      cases res with
      | error e => simp only; exact h2
      | ok newid =>
        simp only
        exact ih s t' (map ++ [(i, newid)]) (i + 1) h2
    · simp only [hs, if_false]
      cases hl : List.lookup nd.parent map with
      | none =>
        simp only
        exact h
      | some p =>
        simp only
        rcases hins : treeInsert t (some p) nd.desc with ⟨t', res⟩
        have h2 : Inv { s with tree := t' } := by
          have h3 := treeInsert_inv { s with tree := t } (some p) nd.desc h
          rw [hins] at h3
          exact h3
        cases res with
        | error e => simp only; exact h2
        | ok newid =>
          simp only
          exact ih s t' (map ++ [(i, newid)]) (i + 1) h2

theorem mountSubtree_inv (s : UState) (mp : DeviceId) (nds : List DeviceDescNode)
    (h : Inv s) : Inv { s with tree := (mountSubtree s.tree mp nds).1 } := by
  unfold mountSubtree
  by_cases hc : treeContains s.tree mp
  · simp only [hc, not_true, if_false, Bool.not_true]
    rcases hgo : mountGo s.tree mp [] 0 nds with ⟨t', map', res⟩
    simp only
    have h2 := mountGo_inv mp nds s s.tree [] 0 h
    rw [hgo] at h2
    exact h2
  · simp only [hc, if_true, Bool.not_false]
    exact h


theorem Inv_frame (s s' : UState) (ht : s'.tree = s.tree) (hp : s'.pids = s.pids)
    (hi : s'.irq_caps = s.irq_caps) (hh : s'.hooks = s.hooks) (h : Inv s) :
    Inv s' := by
  unfold Inv
  rw [ht, hp, hi, hh]
  exact h

theorem addPartitions_frame (l : List LogicDeviceDesc) : ∀ (s : UState),
    (addPartitions s l).tree = s.tree ∧ (addPartitions s l).pids = s.pids ∧
    (addPartitions s l).irq_caps = s.irq_caps ∧
    (addPartitions s l).hooks = s.hooks := by
  induction l with
  | nil => intro s; exact ⟨rfl, rfl, rfl, rfl⟩
  | cons p rest ih =>
    intro s
    simp only [addPartitions]
    exact ih _

theorem registerLogic_frame (s : UState) (desc : LogicDeviceDesc)
    (ep : Option Nat) (probe : Except Err (List LogicDeviceDesc)) :
    (registerLogic s desc ep probe).1.tree = s.tree ∧
    (registerLogic s desc ep probe).1.pids = s.pids ∧
    (registerLogic s desc ep probe).1.irq_caps = s.irq_caps ∧
    (registerLogic s desc ep probe).1.hooks = s.hooks := by
  cases ep with
  | none => exact ⟨rfl, rfl, rfl, rfl⟩
  | some c =>
    cases hdt : desc.dev_type with
    | rawBlock meta =>
      cases probe with
      | error e => simp [registerLogic, assignNameAndCount, hdt]
      | ok parts =>
        simp only [registerLogic, assignNameAndCount, hdt]
        exact addPartitions_frame parts _
    | block meta => simp [registerLogic, assignNameAndCount, hdt]
    | net => simp [registerLogic, assignNameAndCount, hdt]
    | fb => simp [registerLogic, assignNameAndCount, hdt]
    | uart => simp [registerLogic, assignNameAndCount, hdt]
    | input => simp [registerLogic, assignNameAndCount, hdt]
    | gpio => simp [registerLogic, assignNameAndCount, hdt]
    | platform => simp [registerLogic, assignNameAndCount, hdt]
    | thermal => simp [registerLogic, assignNameAndCount, hdt]
    | battery => simp [registerLogic, assignNameAndCount, hdt]

theorem update_inv (s : UState) (b : Nat) (compat : List String)
    (orc : SpawnOracle) (fuel : Nat) (h : Inv s) :
    Inv (update s b compat orc fuel).1 := by
  unfold update
  cases h1 : lookupA s.pids b with
  | none => exact h
  | some node_id =>
    simp only
    have h1inv : Inv { s with pids := eraseA s.pids b } := by
      refine ⟨h.1, h.2.1, ?_, ?_, h.2.2.2.2.1, h.2.2.2.2.2⟩
      · intro b2 id2 hb2
        obtain ⟨hb2o, hne⟩ := lookupA_eraseA_some s.pids b b2 id2 hb2
        exact h.2.2.1 b2 id2 hb2o
      · intro b1 b2 id0 hb1 hb2
        obtain ⟨hb1o, _⟩ := lookupA_eraseA_some s.pids b b1 id0 hb1
        obtain ⟨hb2o, _⟩ := lookupA_eraseA_some s.pids b b2 id0 hb2
        exact h.2.2.2.1 b1 b2 id0 hb1o hb2o
    cases hmod : modifyNode s.tree node_id
        (fun n => { n with desc := { n.desc with compatible := compat },
                           state := .Ready }) with
    | none => exact h1inv
    | some t' =>
      simp only
      obtain ⟨m, hmN, hmRun⟩ := h.2.2.1 b node_id h1
      have h2inv : Inv { s with pids := eraseA s.pids b, tree := t' } := by
        refine ⟨?_, ?_, ?_, ?_, h.2.2.2.2.1, h.2.2.2.2.2⟩
        · show t'.free_head = none
          rw [modifyNode_free s.tree node_id
            (fun n => { n with desc := { n.desc with compatible := compat },
                               state := .Ready }) t' hmod]
          exact h.1
        · show treeWF t'
          exact modifyNode_wf s.tree node_id
            (fun n => { n with desc := { n.desc with compatible := compat },
                               state := .Ready }) t' (fun n => rfl) hmod h.2.1
        · intro b2 id2 hb2
          obtain ⟨hb2o, hne⟩ := lookupA_eraseA_some s.pids b b2 id2 hb2
          obtain ⟨n2, hn2, hrun2⟩ := h.2.2.1 b2 id2 hb2o
          have hmg := modifyNode_getNode s.tree node_id
            (fun n => { n with desc := { n.desc with compatible := compat },
                               state := .Ready }) t' (fun n => rfl) hmod id2
          by_cases hi : id2.index = node_id.index
          · obtain ⟨hid, hnn⟩ :=
              getNode_same_index s.tree id2 node_id n2 m hn2 hmN hi
            have hbb : b2 = b := by
              apply h.2.2.2.1 b2 b node_id
              · rw [← hid]
                exact hb2o
              · exact h1
            exact absurd hbb hne
          · rw [if_neg hi] at hmg
            refine ⟨n2, ?_, hrun2⟩
            show getNode t' id2 = some n2
            rw [hmg]
            exact hn2
        · intro b1 b2 id0 hb1 hb2
          obtain ⟨hb1o, _⟩ := lookupA_eraseA_some s.pids b b1 id0 hb1
          obtain ⟨hb2o, _⟩ := lookupA_eraseA_some s.pids b b2 id0 hb2
          exact h.2.2.2.1 b1 b2 id0 hb1o hb2o
      rcases hscan : scanSubtree { s with pids := eraseA s.pids b, tree := t' }
          node_id orc fuel with ⟨s3, k3, evs, comp⟩
      simp only [hscan]
      have h4 := scanGo_inv orc fuel [node_id]
        { s with pids := eraseA s.pids b, tree := t' } 0 h2inv
      rw [show scanGo orc fuel [node_id]
        { s with pids := eraseA s.pids b, tree := t' } 0 = (s3, k3, evs, comp)
        from hscan] at h4
      exact h4

theorem report_inv (s : UState) (b : Nat) (descs : List DeviceDescNode)
    (orc : SpawnOracle) (fuel : Nat) (h : Inv s) :
    Inv (report s b descs orc fuel).1 := by
  unfold report
  cases h1 : lookupA s.pids b with
  | none => exact h
  | some node_id =>
    simp only
    rcases hms : mountSubtree s.tree node_id descs with ⟨t', r⟩
    have hminv : Inv { s with tree := t' } := by
      have h2 := mountSubtree_inv s node_id descs h
      rw [hms] at h2
      exact h2
    cases r with
    | error e => exact hminv
    | ok u =>
      simp only
      rcases hscan : scanSubtree { s with tree := t' } node_id orc fuel with
        ⟨s3, k3, evs, comp⟩
      simp only [hscan]
      have h4 := scanGo_inv orc fuel [node_id] { s with tree := t' } 0 hminv
      rw [show scanGo orc fuel [node_id] { s with tree := t' } 0 =
        (s3, k3, evs, comp) from hscan] at h4
      exact h4

theorem getMmio_inv (s : UState) (b i : Nat) (r : Except Err Unit) (h : Inv s) :
    Inv (getMmio s b i r).1 := by
  unfold getMmio
  split
  · exact h
  · split
    · exact h
    · split
      · exact h
      · cases r <;> exact h

theorem getIrq_inv (s : UState) (b i : Nat) (r : Except Err Unit) (h : Inv s) :
    Inv (getIrq s b i r).1 := by
  unfold getIrq
  split
  · exact h
  · split
    · exact h
    · split
      · exact h
      · cases r <;> exact h

theorem allocLogic_inv (s : UState) (ty : Nat) (crit : String) (h : Inv s) :
    Inv (allocLogic s ty crit).1 := by
  unfold allocLogic
  split <;> exact h

theorem handleIrq_inv (s : UState) (irq : Nat) (r : Except Err Unit) (h : Inv s) :
    Inv (handleIrq s irq r).1 := by
  unfold handleIrq
  split <;> exact h

theorem registerLogic_inv (s : UState) (desc : LogicDeviceDesc) (ep : Option Nat)
    (probe : Except Err (List LogicDeviceDesc)) (h : Inv s) :
    Inv (registerLogic s desc ep probe).1 := by
  obtain ⟨ht, hp, hi, hh⟩ := registerLogic_frame s desc ep probe
  exact Inv_frame s _ ht hp hi hh h

theorem scanPlatform_inv (s : UState) (orc : SpawnOracle) (fuel : Nat)
    (h : Inv s) : Inv (scanPlatform s orc fuel).1 := by
  unfold scanPlatform
  cases hr : s.tree.root with
  | none => exact h
  | some root => exact scanGo_inv orc fuel [root] s 0 h

theorem init_inv (cfg : Manifest) (slot0 : Nat) : Inv (initState cfg slot0) := by
  refine ⟨rfl, ⟨rfl, ?_⟩, ?_, ?_, rfl, rfl⟩
  · intro idx n hn
    simp [initState, DeviceTree.new] at hn
  · intro b id hb
    simp [initState, lookupA] at hb
  · intro b1 b2 id0 hb1 hb2
    simp [initState, lookupA] at hb1

/-- Every reachable state satisfies the invariant. -/
theorem reach_inv (s : UState) (h : Reach s) : Inv s := by
  induction h with
  | init cfg slot0 => exact init_inv cfg slot0
  | insertStep s p desc hr ih => exact treeInsert_inv s p desc ih
  | scanStep s orc fuel hr ih => exact scanPlatform_inv s orc fuel ih
  | scanSubStep s id orc fuel hr ih => exact scanGo_inv orc fuel [id] s 0 ih
  | reportStep s b descs orc fuel hr ih => exact report_inv s b descs orc fuel ih
  | updateStep s b compat orc fuel hr ih => exact update_inv s b compat orc fuel ih
  | getMmioStep s b i r hr ih => exact getMmio_inv s b i r ih
  | getIrqStep s b i r hr ih => exact getIrq_inv s b i r ih
  | registerStep s desc ep probe hr ih => exact registerLogic_inv s desc ep probe ih
  | allocStep s ty crit hr ih => exact allocLogic_inv s ty crit ih
  | irqStep s irq r hr ih => exact handleIrq_inv s irq r ih


/-- C6: in every reachable state, each pids entry names a node whose state
is Running (update removes the caller's entry before resetting its node to
Ready, and a failed spawn marks Error without inserting a pids entry). -/
theorem C6_pids_running (s : UState) (h : Reach s) :
    ∀ (b : Nat) (id : DeviceId), lookupA s.pids b = some id →
      ∃ n, getNode s.tree id = some n ∧ n.state = DeviceState.Running :=
  (reach_inv s h).2.2.1

/-- C6 witness: after inserting the virtio root and scanning (spawn returns
pid 7), pids maps 7 to the root node, which is Running. -/
theorem C6_witness :
    ∃ n, getNode (scanPlatform c7state orcA 5).1.tree id00 = some n ∧
      n.state = DeviceState.Running :=
  C6_pids_running (scanPlatform c7state orcA 5).1
    (Reach.scanStep c7state orcA 5
      (Reach.insertStep (initState cfgBlk 0) none vdesc (Reach.init cfgBlk 0)))
    7 id00 (by decide)

/-- C8: `irq_caps` is never written by any operation, so it is empty in
every reachable state, and `handle_irq` always takes the unknown-IRQ branch:
no ack event is ever emitted and the state is untouched. -/
theorem C8_irq_router_dead (s : UState) (h : Reach s) :
    s.irq_caps = [] ∧ ∀ (irq : Nat) (r : Except Err Unit),
      handleIrq s irq r = (s, .ok (), []) := by
  have hinv := reach_inv s h
  refine ⟨hinv.2.2.2.2.1, ?_⟩
  intro irq r
  unfold handleIrq
  rw [hinv.2.2.2.2.1]
  rfl

/-- C8 witness at the initial state with IRQ 99 (the spec's unknown-IRQ
scenario). -/
theorem C8_witness :
    (initState cfg0 0).irq_caps = [] ∧
    handleIrq (initState cfg0 0) 99 (.ok ()) = (initState cfg0 0, .ok (), []) :=
  ⟨(C8_irq_router_dead (initState cfg0 0) (Reach.init cfg0 0)).1,
   (C8_irq_router_dead (initState cfg0 0) (Reach.init cfg0 0)).2 99 (.ok ())⟩

/-- C1 as amended: `register_logic` emits no NOTIFY_HOOK (or any other)
outbound event on any input, and no reachable state has a registered hook
(nothing ever appends to `hooks`). -/
theorem C1_corrected :
    (∀ (s : UState) (desc : LogicDeviceDesc) (ep : Option Nat)
      (probe : Except Err (List LogicDeviceDesc)),
      (registerLogic s desc ep probe).2.2 = []) ∧
    (∀ s : UState, Reach s → s.hooks = []) := by
  constructor
  · intro s desc ep probe
    cases ep with
    | none => rfl
    | some c =>
      cases hdt : desc.dev_type <;> cases probe <;>
        simp [registerLogic, assignNameAndCount, hdt]
  · intro s h
    exact (reach_inv s h).2.2.2.2.2

/-- C1 witness: a concrete registration emits no events, and the initial
hook table is empty. -/
theorem C1_witness :
    (registerLogic (initState cfg0 0) netDesc (some 3) (.ok [])).2.2 = [] ∧
    (initState cfg0 0).hooks = [] :=
  ⟨C1_corrected.1 (initState cfg0 0) netDesc (some 3) (.ok []),
   C1_corrected.2 (initState cfg0 0) (Reach.init cfg0 0)⟩


theorem startDriver_pids_other (s : UState) (nid : DeviceId) (orc : SpawnOracle)
    (k b : Nat) (hb : lookupA s.pids b = none)
    (hfresh : ∀ (k2 p : Nat), orc k2 = .ok p → p ≠ b) :
    lookupA (startDriver s nid orc k).1.pids b = none := by
  unfold startDriver
  cases hg : getNode s.tree nid with
  | none => exact hb
  | some node =>
    simp only
    split
    · exact hb
    · cases hm : matchDriver s.config node.desc.name node.desc.compatible with
      | none => exact hb
      | some bin =>
        simp only
        cases horc : orc k with
        | error e =>
          simp only
          cases hmod : modifyNode s.tree nid
              (fun n => { n with state := DeviceState.Error }) with
          | none => exact hb
          | some t' => exact hb
        | ok pid =>
          simp only
          cases hmod : modifyNode s.tree nid
              (fun n => { n with state := DeviceState.Running }) with
          | none => exact hb
          | some t' =>
            show lookupA (insertA s.pids pid nid) b = none
            rw [lookupA_insertA_ne s.pids pid nid b
              (fun hh => (hfresh k pid horc) hh.symm)]
            exact hb

theorem scanGo_pids_other (orc : SpawnOracle) (b : Nat)
    (hfresh : ∀ (k2 p : Nat), orc k2 = .ok p → p ≠ b) :
    ∀ (fuel : Nat) (queue : List DeviceId) (s : UState) (k : Nat),
    lookupA s.pids b = none →
    lookupA (scanGo orc fuel queue s k).1.pids b = none := by
  intro fuel
  induction fuel with
  | zero =>
    intro queue s k hb
    simp only [scanGo]
    exact hb
  | succ n ih =>
    intro queue s k hb
    cases queue with
    | nil =>
      simp only [scanGo]
      exact hb
    | cons q rest =>
      rw [scanGo]
      cases hg : getNode s.tree q with
      | none =>
        simp only [hg]
        exact ih rest s k hb
      | some node =>
        simp only [hg]
        by_cases hr : node.state = DeviceState.Ready
        · rw [if_pos hr]
          rcases hsd : startDriver s q orc k with ⟨s1, k1, evs1⟩
          have h1 : lookupA s1.pids b = none := by
            have h2 := startDriver_pids_other s q orc k b hb hfresh
            rw [hsd] at h2
            exact h2
          rcases hrec : scanGo orc n (rest ++ node.children) s1 k1 with
            ⟨s2, k2, evs2, comp⟩
          simp only [hsd, hrec]
          have h3 := ih (rest ++ node.children) s1 k1 h1
          rw [hrec] at h3
          exact h3
        · rw [if_neg hr]
          exact ih (rest ++ node.children) s k hb

/-- C10: a successful `update` from badge b removes b from pids (the rescan
cannot re-add it, because the driver spawned for the reset node gets a fresh
pid: the process with pid b is still alive, so the process manager will not
hand b out again — the freshness hypothesis), and any subsequent `get_mmio`
or `get_irq` from badge b fails with InvalidArgs. -/
theorem C10_update_unbinds (s : UState) (b : Nat) (compat : List String)
    (orc : SpawnOracle) (fuel : Nat)
    (hfresh : ∀ (k p : Nat), orc k = .ok p → p ≠ b)
    (hok : (update s b compat orc fuel).2.1 = .ok ()) :
    lookupA (update s b compat orc fuel).1.pids b = none ∧
    (∀ (i : Nat) (r : Except Err Unit),
      (getMmio (update s b compat orc fuel).1 b i r).2.1 = .error .invalidArgs) ∧
    (∀ (i : Nat) (r : Except Err Unit),
      (getIrq (update s b compat orc fuel).1 b i r).2.1 = .error .invalidArgs) := by
  have hnone : lookupA (update s b compat orc fuel).1.pids b = none := by
    unfold update at hok ⊢
    cases h1 : lookupA s.pids b with
    | none =>
      simp only [h1] at hok
      cases hok
    | some node_id =>
      simp only [h1] at hok ⊢
      cases hmod : modifyNode s.tree node_id
          (fun n => { n with desc := { n.desc with compatible := compat },
                             state := .Ready }) with
      | none =>
        simp only [hmod] at hok
        cases hok
      | some t' =>
        simp only [hmod]
        rcases hscan : scanSubtree { s with pids := eraseA s.pids b, tree := t' }
            node_id orc fuel with ⟨s3, k3, evs, comp⟩
        simp only [hscan]
        have h2 := scanGo_pids_other orc b hfresh fuel [node_id]
          { s with pids := eraseA s.pids b, tree := t' } 0
          (lookupA_eraseA_self s.pids b)
        rw [show scanGo orc fuel [node_id]
          { s with pids := eraseA s.pids b, tree := t' } 0 = (s3, k3, evs, comp)
          from hscan] at h2
        exact h2
  refine ⟨hnone, ?_, ?_⟩
  · intro i r
    unfold getMmio
    rw [hnone]
  · intro i r
    unfold getIrq
    rw [hnone]

/-- C10 witness: badge 100 updates its virtio node; afterwards its pids
entry is gone and a get_mmio for region 0 fails with InvalidArgs. -/
theorem C10_witness :
    lookupA (update c2state 100 ["x"] orcA 5).1.pids 100 = none ∧
    (getMmio (update c2state 100 ["x"] orcA 5).1 100 0 (.ok ())).2.1 =
      .error .invalidArgs :=
  ⟨(C10_update_unbinds c2state 100 ["x"] orcA 5
      (fun k p hp => by simp [orcA] at hp; omega) (by decide)).1,
   (C10_update_unbinds c2state 100 ["x"] orcA 5
      (fun k p hp => by simp [orcA] at hp; omega) (by decide)).2.1 0 (.ok ())⟩


theorem treeInsert_free (t : DeviceTree) (p : Option DeviceId) (d : DeviceDesc)
    (hfree : t.free_head = none) : (treeInsert t p d).1.free_head = none := by
  cases p with
  | none =>
    obtain ⟨newid, n', h1, h2, h3, h4⟩ := treeInsert_spec t none d hfree (Or.inl rfl)
    exact h3
  | some pid =>
    cases hc : treeContains t pid with
    | false =>
      rw [treeInsert_fail t pid d hc]
      exact hfree
    | true =>
      have hpn : ∃ pn, getNode t pid = some pn := by
        unfold treeContains at hc
        cases hgx : getNode t pid with
        | none => rw [hgx] at hc; cases hc
        | some pn => exact ⟨pn, rfl⟩
      obtain ⟨pn, hpn⟩ := hpn
      obtain ⟨newid, n', h1, h2, h3, h4⟩ :=
        treeInsert_spec t (some pid) d hfree (Or.inr ⟨pid, pn, rfl, hpn⟩)
      exact h3

theorem treeInsert_placed (t : DeviceTree) (p : Option DeviceId) (d d0 : DeviceDesc)
    (hfree : t.free_head = none) (h : nodePlaced t d0) :
    nodePlaced (treeInsert t p d).1 d0 := by
  have main : (p = none ∨ ∃ pid pn, p = some pid ∧ getNode t pid = some pn) →
      nodePlaced (treeInsert t p d).1 d0 := by
    intro hp
    obtain ⟨newid, n', hok, hidx, hfree', hgens, hnew, hdn, hsn, hpn2, hin2, hdang,
      hframe, hlink⟩ := treeInsert_spec t p d hfree hp
    obtain ⟨id0, n0, hn0, hdesc0, pid0, pn0, hpar0, hpn0, hmem⟩ := h
    obtain ⟨n0', hn0', hid0', hdesc0', hst0', hpar0', hch0'⟩ := hframe id0 n0 hn0
    obtain ⟨pn0', hpn0', hidp', hdescp', hstp', hparp', hchp'⟩ :=
      hframe pid0 pn0 hpn0
    refine ⟨id0, n0', hn0', ?_, pid0, pn0', ?_, hpn0', ?_⟩
    · rw [hdesc0']
      exact hdesc0
    · rw [hpar0']
      exact hpar0
    · rcases hchp' with hsame | happ
      · rw [hsame]
        exact hmem
      · rw [happ]
        exact List.mem_append_left _ hmem
  cases p with
  | none => exact main (Or.inl rfl)
  | some pid =>
    cases hc : treeContains t pid with
    | false =>
      rw [treeInsert_fail t pid d hc]
      exact h
    | true =>
      have hpn : ∃ pn, getNode t pid = some pn := by
        unfold treeContains at hc
        cases hgx : getNode t pid with
        | none => rw [hgx] at hc; cases hc
        | some pn => exact ⟨pn, rfl⟩
      obtain ⟨pn, hpn⟩ := hpn
      exact main (Or.inr ⟨pid, pn, rfl, hpn⟩)

theorem mountGo_free (mp : DeviceId) : ∀ (nds : List DeviceDescNode)
    (t : DeviceTree) (map : List (Nat × DeviceId)) (i : Nat),
    t.free_head = none → (mountGo t mp map i nds).1.free_head = none := by
  intro nds
  induction nds with
  | nil => intro t map i hfree; exact hfree
  | cons nd rest ih =>
    intro t map i hfree
    rw [mountGo]
    by_cases hs : nd.parent = usizeMax
    · simp only [hs, if_true]
      rcases hins : treeInsert t (some mp) nd.desc with ⟨t1, res⟩
      have h1 : t1.free_head = none := by
        have h2 := treeInsert_free t (some mp) nd.desc hfree
        rw [hins] at h2
        exact h2
      cases res with
      | error e => exact h1
      | ok newid => exact ih t1 (map ++ [(i, newid)]) (i + 1) h1
    · simp only [hs, if_false]
      cases hl : List.lookup nd.parent map with
      | none => exact hfree
      | some p =>
        simp only
        rcases hins : treeInsert t (some p) nd.desc with ⟨t1, res⟩
        have h1 : t1.free_head = none := by
          have h2 := treeInsert_free t (some p) nd.desc hfree
          rw [hins] at h2
          exact h2
        cases res with
        | error e => exact h1
        | ok newid => exact ih t1 (map ++ [(i, newid)]) (i + 1) h1

theorem mountGo_placed (mp : DeviceId) : ∀ (nds : List DeviceDescNode)
    (t : DeviceTree) (map : List (Nat × DeviceId)) (i : Nat) (d0 : DeviceDesc),
    t.free_head = none → nodePlaced t d0 →
    nodePlaced (mountGo t mp map i nds).1 d0 := by
  intro nds
  induction nds with
  | nil => intro t map i d0 hfree h; exact h
  | cons nd rest ih =>
    intro t map i d0 hfree h
    rw [mountGo]
    by_cases hs : nd.parent = usizeMax
    · simp only [hs, if_true]
      rcases hins : treeInsert t (some mp) nd.desc with ⟨t1, res⟩
      have h1 : t1.free_head = none := by
        have h2 := treeInsert_free t (some mp) nd.desc hfree
        rw [hins] at h2
        exact h2
      have h3 : nodePlaced t1 d0 := by
        have h4 := treeInsert_placed t (some mp) nd.desc d0 hfree h
        rw [hins] at h4
        exact h4
      cases res with
      | error e => exact h3
      | ok newid => exact ih t1 (map ++ [(i, newid)]) (i + 1) d0 h1 h3
    · simp only [hs, if_false]
      cases hl : List.lookup nd.parent map with
      | none => exact h
      | some p =>
        simp only
        rcases hins : treeInsert t (some p) nd.desc with ⟨t1, res⟩
        have h1 : t1.free_head = none := by
          have h2 := treeInsert_free t (some p) nd.desc hfree
          rw [hins] at h2
          exact h2
        have h3 : nodePlaced t1 d0 := by
          have h4 := treeInsert_placed t (some p) nd.desc d0 hfree h
          rw [hins] at h4
          exact h4
        cases res with
        | error e => exact h3
        | ok newid => exact ih t1 (map ++ [(i, newid)]) (i + 1) d0 h1 h3

theorem lookup_append_single {β : Type} (map : List (Nat × β)) (i : Nat) (v : β)
    (n : Nat) :
    ((map ++ [(i, v)]).lookup n).isSome ↔ (map.lookup n).isSome ∨ n = i := by
  induction map with
  | nil =>
    rw [List.nil_append, List.lookup_cons, List.lookup_nil]
    by_cases h : n = i
    · have hb : (n == i) = true := by simpa using h
      rw [hb]
      simp [h]
    · have hb : (n == i) = false := by simpa using h
      rw [hb]
      simp [h]
  | cons kv rest ih =>
    obtain ⟨a, b⟩ := kv
    rw [List.cons_append, List.lookup_cons, List.lookup_cons]
    by_cases h : n = a
    · have hb : (n == a) = true := by simpa using h
      rw [hb]
      simp
    · have hb : (n == a) = false := by simpa using h
      rw [hb]
      exact ih


theorem lookup_pair_mem {β : Type} (map : List (Nat × β)) (n : Nat) (v : β)
    (h : map.lookup n = some v) : (n, v) ∈ map := by
  induction map with
  | nil => simp at h
  | cons kv rest ih =>
    obtain ⟨a, b⟩ := kv
    rw [List.lookup_cons] at h
    by_cases hn : n = a
    · have hb : (n == a) = true := by simpa using hn
      rw [hb] at h
      simp only [Option.some.injEq] at h
      subst hn
      subst h
      exact List.mem_cons_self _ _
    · have hb : (n == a) = false := by simpa using hn
      rw [hb] at h
      exact List.mem_cons_of_mem _ (ih h)

/-- Partial-mutation behavior of the `mount_subtree` loop: if it returns
InvalidArgs, some element carries a forward or dangling parent index (not
the MAX sentinel, and at least its own absolute position), and every
earlier element of the batch has been inserted and linked into the tree
that is returned with the error. -/
theorem mountGo_partial (mp : DeviceId) : ∀ (nds : List DeviceDescNode)
    (t : DeviceTree) (map : List (Nat × DeviceId)) (i : Nat)
    (t' : DeviceTree) (mapF : List (Nat × DeviceId))
    (hfree : t.free_head = none)
    (hmp : ∃ mn, getNode t mp = some mn)
    (hmap : ∀ kv ∈ map, ∃ n, getNode t kv.2 = some n)
    (hdom : ∀ n, (map.lookup n).isSome ↔ n < i)
    (herr : mountGo t mp map i nds = (t', mapF, .error .invalidArgs)),
    ∃ j nd, nds[j]? = some nd ∧ nd.parent ≠ usizeMax ∧ i + j ≤ nd.parent ∧
      ∀ m, m < j → ∃ ndm, nds[m]? = some ndm ∧ nodePlaced t' ndm.desc := by
  intro nds
  induction nds with
  | nil =>
    intro t map i t' mapF hfree hmp hmap hdom herr
    rw [mountGo] at herr
    simp at herr
  | cons nd rest ih =>
    intro t map i t' mapF hfree hmp hmap hdom herr
    rw [mountGo] at herr
    by_cases hs : nd.parent = usizeMax
    · simp only [hs, if_true] at herr
      obtain ⟨mn, hmn⟩ := hmp
      obtain ⟨newid, n', hok, hidx, hfree', hgens, hnew, hdn, hsn, hpn2, hin2,
        hdang, hframe, hlink⟩ :=
        treeInsert_spec t (some mp) nd.desc hfree (Or.inr ⟨mp, mn, rfl, hmn⟩)
      have hpair : treeInsert t (some mp) nd.desc =
          ((treeInsert t (some mp) nd.desc).1, .ok newid) := by
        rw [← hok]
      rw [hpair] at herr
      have hmp1 : ∃ mn1, getNode (treeInsert t (some mp) nd.desc).1 mp = some mn1 := by
        obtain ⟨mn1, hmn1, _⟩ := hframe mp mn hmn
        exact ⟨mn1, hmn1⟩
      have hmap1 : ∀ kv ∈ map ++ [(i, newid)],
          ∃ n, getNode (treeInsert t (some mp) nd.desc).1 kv.2 = some n := by
        intro kv hkv
        rcases List.mem_append.mp hkv with hin | hone
        · obtain ⟨n0, hn0⟩ := hmap kv hin
          obtain ⟨n0', hn0', _⟩ := hframe kv.2 n0 hn0
          exact ⟨n0', hn0'⟩
        · have : kv = (i, newid) := by simpa using hone
          rw [this]
          exact ⟨n', hnew⟩
      have hdom1 : ∀ n, ((map ++ [(i, newid)]).lookup n).isSome ↔ n < i + 1 := by
        intro n
        rw [lookup_append_single, hdom]
        omega
      obtain ⟨j, ndj, hj1, hj2, hj3, hj4⟩ :=
        ih (treeInsert t (some mp) nd.desc).1 (map ++ [(i, newid)]) (i + 1)
          t' mapF hfree' hmp1 hmap1 hdom1 herr
      refine ⟨j + 1, ndj, ?_, hj2, by omega, ?_⟩
      · rw [List.getElem?_cons_succ]
        exact hj1
      · intro m hm
        cases m with
        | zero =>
          refine ⟨nd, by simp, ?_⟩
          obtain ⟨pn', hpn', hmemn⟩ := hlink mp rfl
          have hplaced1 : nodePlaced (treeInsert t (some mp) nd.desc).1 nd.desc :=
            ⟨newid, n', hnew, hdn, mp, pn', hpn2, hpn', hmemn⟩
          have hpres := mountGo_placed mp rest (treeInsert t (some mp) nd.desc).1
            (map ++ [(i, newid)]) (i + 1) nd.desc hfree' hplaced1
          rw [show mountGo (treeInsert t (some mp) nd.desc).1 mp
            (map ++ [(i, newid)]) (i + 1) rest = (t', mapF, .error .invalidArgs)
            from herr] at hpres
          exact hpres
        | succ m2 =>
          obtain ⟨ndm, hn1, hn2⟩ := hj4 m2 (by omega)
          refine ⟨ndm, ?_, hn2⟩
          rw [List.getElem?_cons_succ]
          exact hn1
    · simp only [hs, if_false] at herr
      cases hl : map.lookup nd.parent with
      | none =>
        simp only [hl] at herr
        have ht2 : t = t' := congrArg (fun x => x.1) herr
        have hge : ¬ nd.parent < i := by
          rw [← hdom nd.parent, hl]
          simp
        refine ⟨0, nd, by simp, hs, by omega, ?_⟩
        intro m hm
        exact absurd hm (Nat.not_lt_zero m)
      | some p =>
        simp only [hl] at herr
        have hpmem := lookup_pair_mem map nd.parent p hl
        obtain ⟨pn0, hpn0⟩ := hmap (nd.parent, p) hpmem
        obtain ⟨newid, n', hok, hidx, hfree', hgens, hnew, hdn, hsn, hpn2, hin2,
          hdang, hframe, hlink⟩ :=
          treeInsert_spec t (some p) nd.desc hfree (Or.inr ⟨p, pn0, rfl, hpn0⟩)
        have hpair : treeInsert t (some p) nd.desc =
            ((treeInsert t (some p) nd.desc).1, .ok newid) := by
          rw [← hok]
        rw [hpair] at herr
        have hmp1 : ∃ mn1, getNode (treeInsert t (some p) nd.desc).1 mp = some mn1 := by
          obtain ⟨mn, hmn⟩ := hmp
          obtain ⟨mn1, hmn1, _⟩ := hframe mp mn hmn
          exact ⟨mn1, hmn1⟩
        have hmap1 : ∀ kv ∈ map ++ [(i, newid)],
            ∃ n, getNode (treeInsert t (some p) nd.desc).1 kv.2 = some n := by
          intro kv hkv
          rcases List.mem_append.mp hkv with hin | hone
          · obtain ⟨n0, hn0⟩ := hmap kv hin
            obtain ⟨n0', hn0', _⟩ := hframe kv.2 n0 hn0
            exact ⟨n0', hn0'⟩
          · have : kv = (i, newid) := by simpa using hone
            rw [this]
            exact ⟨n', hnew⟩
        have hdom1 : ∀ n, ((map ++ [(i, newid)]).lookup n).isSome ↔ n < i + 1 := by
          intro n
          rw [lookup_append_single, hdom]
          omega
        obtain ⟨j, ndj, hj1, hj2, hj3, hj4⟩ :=
          ih (treeInsert t (some p) nd.desc).1 (map ++ [(i, newid)]) (i + 1)
            t' mapF hfree' hmp1 hmap1 hdom1 herr
        refine ⟨j + 1, ndj, ?_, hj2, by omega, ?_⟩
        · rw [List.getElem?_cons_succ]
          exact hj1
        · intro m hm
          cases m with
          | zero =>
            refine ⟨nd, by simp, ?_⟩
            obtain ⟨pn', hpn', hmemn⟩ := hlink p rfl
            have hplaced1 : nodePlaced (treeInsert t (some p) nd.desc).1 nd.desc :=
              ⟨newid, n', hnew, hdn, p, pn', hpn2, hpn', hmemn⟩
            have hpres := mountGo_placed mp rest (treeInsert t (some p) nd.desc).1
              (map ++ [(i, newid)]) (i + 1) nd.desc hfree' hplaced1
            rw [show mountGo (treeInsert t (some p) nd.desc).1 mp
              (map ++ [(i, newid)]) (i + 1) rest = (t', mapF, .error .invalidArgs)
              from herr] at hpres
            exact hpres
          | succ m2 =>
            obtain ⟨ndm, hn1, hn2⟩ := hj4 m2 (by omega)
            refine ⟨ndm, ?_, hn2⟩
            rw [List.getElem?_cons_succ]
            exact hn1

/-- C9: `mount_subtree` is not atomic.  When it returns InvalidArgs, the
failing element's parent index is a forward or dangling reference (not the
MAX sentinel and no smaller than its own position), every earlier element
has already been inserted and linked under its parent, and those nodes are
still present in the tree returned alongside the error. -/
theorem C9_mount_not_atomic (t : DeviceTree) (mp : DeviceId)
    (nds : List DeviceDescNode) (t' : DeviceTree)
    (hfree : t.free_head = none) (hmp : treeContains t mp = true)
    (herr : mountSubtree t mp nds = (t', .error .invalidArgs)) :
    ∃ (j : Nat) (nd : DeviceDescNode), nds[j]? = some nd ∧
      nd.parent ≠ usizeMax ∧ j ≤ nd.parent ∧
      ∀ m, m < j → ∃ ndm, nds[m]? = some ndm ∧ nodePlaced t' ndm.desc := by
  unfold mountSubtree at herr
  simp only [hmp, Bool.not_true, not_true, if_false] at herr
  rcases hgo : mountGo t mp [] 0 nds with ⟨t2, map2, res⟩
  rw [hgo] at herr
  simp only [Prod.mk.injEq] at herr
  obtain ⟨ht2, hres⟩ := herr
  have hmpx : ∃ mn, getNode t mp = some mn := by
    unfold treeContains at hmp
    cases hgx : getNode t mp with
    | none => rw [hgx] at hmp; cases hmp
    | some mn => exact ⟨mn, rfl⟩
  have hgo2 : mountGo t mp [] 0 nds = (t', map2, .error .invalidArgs) := by
    rw [hgo, ht2, hres]
  obtain ⟨j, nd, h1, h2, h3, h4⟩ := mountGo_partial mp nds t [] 0 t' map2 hfree
    hmpx (by intro kv hkv; simp at hkv) (by intro n; simp) hgo2
  exact ⟨j, nd, h1, h2, by omega, h4⟩

theorem C9_witness :
    c2tree.free_head = none ∧ treeContains c2tree id00 = true ∧
    (∃ (j : Nat) (nd : DeviceDescNode),
      ([{ parent := usizeMax, desc := rdesc }, { parent := 5, desc := rdesc }]
        : List DeviceDescNode)[j]? = some nd ∧
      nd.parent ≠ usizeMax ∧ j ≤ nd.parent ∧
      ∀ m, m < j → ∃ ndm,
        ([{ parent := usizeMax, desc := rdesc }, { parent := 5, desc := rdesc }]
          : List DeviceDescNode)[m]? = some ndm ∧
        nodePlaced (mountSubtree c2tree id00
          [{ parent := usizeMax, desc := rdesc },
           { parent := 5, desc := rdesc }]).1 ndm.desc) :=
  ⟨by decide, by decide,
    C9_mount_not_atomic c2tree id00
      [{ parent := usizeMax, desc := rdesc }, { parent := 5, desc := rdesc }]
      (mountSubtree c2tree id00
        [{ parent := usizeMax, desc := rdesc },
         { parent := 5, desc := rdesc }]).1
      (by decide) (by decide) (by decide)⟩

theorem stripNode_children (n n' : DeviceNode) (h : stripNode n' = stripNode n) :
    n'.children = n.children := congrArg (fun x => x.2.1) h

theorem stripNode_desc (n n' : DeviceNode) (h : stripNode n' = stripNode n) :
    n'.desc = n.desc := congrArg (fun x => x.2.2.2.1) h

theorem sameShape_getNode_none (t t' : DeviceTree) (h : sameShape t t')
    (id : DeviceId) (hn : getNode t id = none) : getNode t' id = none := by
  have hmap := h.2.2 id
  rw [hn] at hmap
  cases hx : getNode t' id with
  | none => rfl
  | some n =>
    rw [hx] at hmap
    simp at hmap

theorem sameShape_getNode_some (t t' : DeviceTree) (h : sameShape t t')
    (id : DeviceId) (n : DeviceNode) (hn : getNode t id = some n) :
    ∃ n', getNode t' id = some n' ∧ stripNode n' = stripNode n := by
  have hmap := h.2.2 id
  rw [hn] at hmap
  cases hx : getNode t' id with
  | none =>
    rw [hx] at hmap
    simp at hmap
  | some n' =>
    rw [hx] at hmap
    simp only [Option.map_some'] at hmap
    exact ⟨n', rfl, by simpa using hmap⟩

theorem sameShape_symm (t t' : DeviceTree) (h : sameShape t t') :
    sameShape t' t := by
  refine ⟨h.1.symm, h.2.1.symm, ?_⟩
  intro id
  exact (h.2.2 id).symm

theorem sameShape_trans (t1 t2 t3 : DeviceTree) (h12 : sameShape t1 t2)
    (h23 : sameShape t2 t3) : sameShape t1 t3 := by
  refine ⟨h23.1.trans h12.1, h23.2.1.trans h12.2.1, ?_⟩
  intro id
  exact (h23.2.2 id).trans (h12.2.2 id)

theorem ReachFrom_transfer (t t' : DeviceTree) (h : sameShape t t')
    (a b : DeviceId) (hr : ReachFrom t a b) : ReachFrom t' a b := by
  induction hr with
  | refl a => exact ReachFrom.refl a
  | head a b c n hget hmem hr2 ih =>
    obtain ⟨n', hget', hstrip⟩ := sameShape_getNode_some t t' h a n hget
    refine ReachFrom.head a b c n' hget' ?_ ih
    rw [stripNode_children n n' hstrip]
    exact hmem

theorem scanPreserves_refl (s : UState) : scanPreserves s s :=
  ⟨⟨rfl, rfl, fun _ => rfl⟩, rfl, fun _ n n' h1 h2 h3 => by
    rw [h1] at h2
    cases h2
    exact h3⟩

theorem scanPreserves_trans (s1 s2 s3 : UState) (h12 : scanPreserves s1 s2)
    (h23 : scanPreserves s2 s3) : scanPreserves s1 s3 := by
  refine ⟨sameShape_trans s1.tree s2.tree s3.tree h12.1 h23.1,
    h23.2.1.trans h12.2.1, ?_⟩
  intro id n n3 h1 h3 hr3
  obtain ⟨n2, h2, _⟩ := sameShape_getNode_some s1.tree s2.tree h12.1 id n h1
  exact h12.2.2 id n n2 h1 h2 (h23.2.2 id n2 n3 h2 h3 hr3)

theorem handled_mono (s s' : UState) (h : scanPreserves s s') (id : DeviceId)
    (hh : handled s id) : handled s' id := by
  intro n' hget' hready'
  cases hget : getNode s.tree id with
  | none =>
    rw [sameShape_getNode_none s.tree s'.tree h.1 id hget] at hget'
    cases hget'
  | some n =>
    obtain ⟨n2, hget2, hstrip⟩ := sameShape_getNode_some s.tree s'.tree h.1 id n hget
    rw [hget2] at hget'
    cases hget'
    have hready : n.state = .Ready := h.2.2 id n n' hget hget2 hready'
    have hm := hh n hget hready
    rw [h.2.1, stripNode_desc n n' hstrip]
    exact hm

theorem modifyNode_shape (t : DeviceTree) (id : DeviceId) (st : DeviceState)
    (t' : DeviceTree)
    (hmod : modifyNode t id (fun n => { n with state := st }) = some t') :
    sameShape t t' := by
  refine ⟨modifyNode_root t id _ t' hmod, modifyNode_generations t id _ t' hmod, ?_⟩
  intro id2
  have hmg := modifyNode_getNode t id (fun n => { n with state := st }) t'
    (fun n => rfl) hmod id2
  rw [hmg]
  by_cases hi : id2.index = id.index
  · rw [if_pos hi]
    cases getNode t id2 <;> rfl
  · rw [if_neg hi]

theorem modifyNode_noReady (t : DeviceTree) (id : DeviceId) (st : DeviceState)
    (t' : DeviceTree) (hst : st ≠ .Ready)
    (hmod : modifyNode t id (fun n => { n with state := st }) = some t')
    (id2 : DeviceId) (n n' : DeviceNode) (h1 : getNode t id2 = some n)
    (h2 : getNode t' id2 = some n') (h3 : n'.state = .Ready) : n.state = .Ready := by
  have hmg := modifyNode_getNode t id (fun n => { n with state := st }) t'
    (fun n => rfl) hmod id2
  by_cases hi : id2.index = id.index
  · rw [if_pos hi, h1] at hmg
    rw [hmg] at h2
    simp only [Option.map_some'] at h2
    cases h2
    exact absurd h3 hst
  · rw [if_neg hi, h1] at hmg
    rw [hmg] at h2
    cases h2
    exact h3

theorem startDriver_preserves (s : UState) (nid : DeviceId) (orc : SpawnOracle)
    (k : Nat) : scanPreserves s (startDriver s nid orc k).1 := by
  unfold startDriver
  cases hg : getNode s.tree nid with
  | none => exact scanPreserves_refl s
  | some node =>
    simp only
    by_cases hst : node.state ≠ DeviceState.Ready
    · rw [if_pos hst]
      exact scanPreserves_refl s
    · rw [if_neg hst]
      cases hm : matchDriver s.config node.desc.name node.desc.compatible with
      | none => exact scanPreserves_refl s
      | some bin =>
        simp only
        cases horc : orc k with
        | error e =>
          simp only
          cases hmod : modifyNode s.tree nid
              (fun n => { n with state := DeviceState.Error }) with
          | none => exact scanPreserves_refl s
          | some t' =>
            refine ⟨modifyNode_shape s.tree nid DeviceState.Error t' hmod, rfl, ?_⟩
            intro id2 n n' h1 h2 h3
            exact modifyNode_noReady s.tree nid DeviceState.Error t'
              (by intro hx; cases hx) hmod id2 n n' h1 h2 h3
        | ok pid =>
          simp only
          cases hmod : modifyNode s.tree nid
              (fun n => { n with state := DeviceState.Running }) with
          | none => exact scanPreserves_refl s
          | some t' =>
            refine ⟨modifyNode_shape s.tree nid DeviceState.Running t' hmod, rfl, ?_⟩
            intro id2 n n' h1 h2 h3
            exact modifyNode_noReady s.tree nid DeviceState.Running t'
              (by intro hx; cases hx) hmod id2 n n' h1 h2 h3

theorem startDriver_wf (s : UState) (nid : DeviceId) (orc : SpawnOracle)
    (k : Nat) (hwf : treeWF s.tree) : treeWF (startDriver s nid orc k).1.tree := by
  unfold startDriver
  cases hg : getNode s.tree nid with
  | none => exact hwf
  | some node =>
    simp only
    by_cases hst : node.state ≠ DeviceState.Ready
    · rw [if_pos hst]
      exact hwf
    · rw [if_neg hst]
      cases hm : matchDriver s.config node.desc.name node.desc.compatible with
      | none => exact hwf
      | some bin =>
        simp only
        cases horc : orc k with
        | error e =>
          simp only
          cases hmod : modifyNode s.tree nid
              (fun n => { n with state := DeviceState.Error }) with
          | none => exact hwf
          | some t' =>
            exact modifyNode_wf s.tree nid
              (fun n => { n with state := DeviceState.Error }) t'
              (fun n => rfl) hmod hwf
        | ok pid =>
          simp only
          cases hmod : modifyNode s.tree nid
              (fun n => { n with state := DeviceState.Running }) with
          | none => exact hwf
          | some t' =>
            exact modifyNode_wf s.tree nid
              (fun n => { n with state := DeviceState.Running }) t'
              (fun n => rfl) hmod hwf

theorem startDriver_handles (s : UState) (nid : DeviceId) (orc : SpawnOracle)
    (k : Nat) (hwf : treeWF s.tree) : handled (startDriver s nid orc k).1 nid := by
  unfold startDriver
  cases hg : getNode s.tree nid with
  | none =>
    intro n hget hready
    rw [hg] at hget
    cases hget
  | some node =>
    simp only
    by_cases hst : node.state ≠ DeviceState.Ready
    · rw [if_pos hst]
      intro n hget hready
      rw [hg] at hget
      cases hget
      exact absurd hready hst
    · rw [if_neg hst]
      cases hm : matchDriver s.config node.desc.name node.desc.compatible with
      | none =>
        intro n hget hready
        rw [hg] at hget
        cases hget
        exact hm
      | some bin =>
        simp only
        cases horc : orc k with
        | error e =>
          simp only
          cases hmod : modifyNode s.tree nid
              (fun n => { n with state := DeviceState.Error }) with
          | none =>
            obtain ⟨t2, hmod2⟩ := modifyNode_succeeds s.tree nid
              (fun n => { n with state := DeviceState.Error }) node hwf hg
            rw [hmod] at hmod2
            cases hmod2
          | some t' =>
            intro n hget hready
            have hget2 : getNode t' nid = some n := hget
            have hmg := modifyNode_getNode s.tree nid
              (fun n => { n with state := DeviceState.Error }) t'
              (fun n => rfl) hmod nid
            rw [if_pos rfl, hg] at hmg
            rw [hmg] at hget2
            simp only [Option.map_some'] at hget2
            cases hget2
            cases hready
        | ok pid =>
          simp only
          cases hmod : modifyNode s.tree nid
              (fun n => { n with state := DeviceState.Running }) with
          | none =>
            obtain ⟨t2, hmod2⟩ := modifyNode_succeeds s.tree nid
              (fun n => { n with state := DeviceState.Running }) node hwf hg
            rw [hmod] at hmod2
            cases hmod2
          | some t' =>
            intro n hget hready
            have hget2 : getNode t' nid = some n := hget
            have hmg := modifyNode_getNode s.tree nid
              (fun n => { n with state := DeviceState.Running }) t'
              (fun n => rfl) hmod nid
            rw [if_pos rfl, hg] at hmg
            rw [hmg] at hget2
            simp only [Option.map_some'] at hget2
            cases hget2
            cases hready

theorem startDriver_noop (s : UState) (nid : DeviceId) (orc : SpawnOracle)
    (k : Nat) (node : DeviceNode) (hg : getNode s.tree nid = some node)
    (hready : node.state = DeviceState.Ready)
    (hm : matchDriver s.config node.desc.name node.desc.compatible = none) :
    startDriver s nid orc k = (s, k, []) := by
  unfold startDriver
  rw [hg]
  simp only [hready, ne_eq, not_true_eq_false, if_false, hm]

theorem scanGo_preserves (orc : SpawnOracle) : ∀ (fuel : Nat) (queue : List DeviceId)
    (s : UState) (k : Nat), treeWF s.tree →
    scanPreserves s (scanGo orc fuel queue s k).1 ∧
    treeWF (scanGo orc fuel queue s k).1.tree := by
  intro fuel
  induction fuel with
  | zero =>
    intro queue s k hwf
    simp only [scanGo]
    exact ⟨scanPreserves_refl s, hwf⟩
  | succ n ih =>
    intro queue s k hwf
    cases queue with
    | nil =>
      simp only [scanGo]
      exact ⟨scanPreserves_refl s, hwf⟩
    | cons qh rest =>
      rw [scanGo]
      cases hg : getNode s.tree qh with
      | none =>
        simp only [hg]
        exact ih rest s k hwf
      | some node =>
        simp only [hg]
        by_cases hrd : node.state = DeviceState.Ready
        · rw [if_pos hrd]
          rcases hsd : startDriver s qh orc k with ⟨s1, k1, evs1⟩
          have hp1 : scanPreserves s s1 := by
            have h2 := startDriver_preserves s qh orc k
            rw [hsd] at h2
            exact h2
          have hwf1 : treeWF s1.tree := by
            have h2 := startDriver_wf s qh orc k hwf
            rw [hsd] at h2
            exact h2
          rcases hrec : scanGo orc n (rest ++ node.children) s1 k1 with
            ⟨s2, k2, evs2, comp⟩
          simp only [hsd, hrec]
          have h3 := ih (rest ++ node.children) s1 k1 hwf1
          rw [hrec] at h3
          exact ⟨scanPreserves_trans s s1 s2 hp1 h3.1, h3.2⟩
        · rw [if_neg hrd]
          exact ih (rest ++ node.children) s k hwf

theorem scan_post (orc : SpawnOracle) : ∀ (fuel : Nat) (queue : List DeviceId)
    (s : UState) (k : Nat) (s2 : UState) (k2 : Nat) (evs : List Event),
    treeWF s.tree → scanGo orc fuel queue s k = (s2, k2, evs, true) →
    ∀ q ∈ queue, ∀ c, ReachFrom s.tree q c → handled s2 c := by
  intro fuel
  induction fuel with
  | zero =>
    intro queue s k s2 k2 evs hwf he q hq c hr
    simp only [scanGo] at he
    have hemp : queue.isEmpty = true := congrArg (fun x => x.2.2.2) he
    cases queue with
    | nil => cases hq
    | cons a l => simp at hemp
  | succ n ih =>
    intro queue s k s2 k2 evs hwf he q hq c hr
    cases queue with
    | nil => cases hq
    | cons qh rest =>
      rw [scanGo] at he
      cases hg : getNode s.tree qh with
      | none =>
        simp only [hg] at he
        rcases List.mem_cons.mp hq with hq1 | hq2
        · subst hq1
          cases hr with
          | refl a =>
            intro nn hget hready
            have hp := (scanGo_preserves orc n rest s k hwf).1
            rw [he] at hp
            have hnone : getNode s2.tree q = none :=
              sameShape_getNode_none s.tree s2.tree hp.1 q hg
            have hget2 : getNode s2.tree q = some nn := hget
            rw [hnone] at hget2
            cases hget2
          | head a b c2 n0 hget0 hmem hr2 =>
            rw [hg] at hget0
            cases hget0
        · exact ih rest s k s2 k2 evs hwf he q hq2 c hr
      | some node =>
        simp only [hg] at he
        by_cases hrd : node.state = DeviceState.Ready
        · rw [if_pos hrd] at he
          rcases hsd : startDriver s qh orc k with ⟨s1, k1, evs1⟩
          rcases hrec : scanGo orc n (rest ++ node.children) s1 k1 with
            ⟨s2x, k2x, evs2, comp⟩
          simp only [hsd, hrec] at he
          have hs2 : s2x = s2 := congrArg (fun x => x.1) he
          have hk2 : k2x = k2 := congrArg (fun x => x.2.1) he
          have hcomp : comp = true := congrArg (fun x => x.2.2.2) he
          subst hs2
          subst hcomp
          have hp1 : scanPreserves s s1 := by
            have h2 := startDriver_preserves s qh orc k
            rw [hsd] at h2
            exact h2
          have hwf1 : treeWF s1.tree := by
            have h2 := startDriver_wf s qh orc k hwf
            rw [hsd] at h2
            exact h2
          have IH := ih (rest ++ node.children) s1 k1 s2x k2x evs2 hwf1 hrec
          rcases List.mem_cons.mp hq with hq1 | hq2
          · subst hq1
            cases hr with
            | refl a =>
              have hh1 : handled s1 q := by
                have h2 := startDriver_handles s q orc k hwf
                rw [hsd] at h2
                exact h2
              have hp2 : scanPreserves s1 s2x := by
                have h2 := (scanGo_preserves orc n (rest ++ node.children) s1 k1 hwf1).1
                rw [hrec] at h2
                exact h2
              exact handled_mono s1 s2x hp2 q hh1
            | head a b c2 n0 hget0 hmem hr2 =>
              rw [hg] at hget0
              cases hget0
              have hb : b ∈ rest ++ node.children := List.mem_append.mpr (Or.inr hmem)
              have hr1 : ReachFrom s1.tree b c :=
                ReachFrom_transfer s.tree s1.tree hp1.1 b c hr2
              exact IH b hb c hr1
          · have hb : q ∈ rest ++ node.children := List.mem_append.mpr (Or.inl hq2)
            have hr1 : ReachFrom s1.tree q c :=
              ReachFrom_transfer s.tree s1.tree hp1.1 q c hr
            exact IH q hb c hr1
        · rw [if_neg hrd] at he
          have IH := ih (rest ++ node.children) s k s2 k2 evs hwf he
          rcases List.mem_cons.mp hq with hq1 | hq2
          · subst hq1
            cases hr with
            | refl a =>
              have hh : handled s q := by
                intro nn hget hready
                rw [hg] at hget
                cases hget
                exact absurd hready hrd
              have hp2 : scanPreserves s s2 := by
                have h2 := (scanGo_preserves orc n (rest ++ node.children) s k hwf).1
                rw [he] at h2
                exact h2
              exact handled_mono s s2 hp2 q hh
            | head a b c2 n0 hget0 hmem hr2 =>
              rw [hg] at hget0
              cases hget0
              have hb : b ∈ rest ++ node.children := List.mem_append.mpr (Or.inr hmem)
              exact IH b hb c hr2
          · have hb : q ∈ rest ++ node.children := List.mem_append.mpr (Or.inl hq2)
            exact IH q hb c hr

theorem scan_clean (orc : SpawnOracle) : ∀ (fuel : Nat) (queue : List DeviceId)
    (s : UState) (k : Nat),
    (∀ q ∈ queue, ∀ c, ReachFrom s.tree q c → handled s c) →
    ∃ flag, scanGo orc fuel queue s k = (s, k, [], flag) := by
  intro fuel
  induction fuel with
  | zero =>
    intro queue s k hh
    exact ⟨queue.isEmpty, rfl⟩
  | succ n ih =>
    intro queue s k hh
    cases queue with
    | nil => exact ⟨true, rfl⟩
    | cons qh rest =>
      cases hg : getNode s.tree qh with
      | none =>
        obtain ⟨flag, hrec⟩ :=
          ih rest s k (fun q hq c hr => hh q (List.mem_cons_of_mem qh hq) c hr)
        refine ⟨flag, ?_⟩
        simp only [scanGo, hg, hrec]
      | some node =>
        by_cases hrd : node.state = DeviceState.Ready
        · have hhq : handled s qh := hh qh (List.mem_cons_self qh rest) qh (ReachFrom.refl qh)
          have hm : matchDriver s.config node.desc.name node.desc.compatible = none :=
            hhq node hg hrd
          have hnoop := startDriver_noop s qh orc k node hg hrd hm
          have hchild : ∀ q ∈ rest ++ node.children, ∀ c,
              ReachFrom s.tree q c → handled s c := by
            intro q hq c hr
            rcases List.mem_append.mp hq with h1 | h2
            · exact hh q (List.mem_cons_of_mem qh h1) c hr
            · exact hh qh (List.mem_cons_self qh rest) c
                (ReachFrom.head qh q c node hg h2 hr)
          obtain ⟨flag, hrec⟩ := ih (rest ++ node.children) s k hchild
          refine ⟨flag, ?_⟩
          simp only [scanGo, hg, hrd, if_true, hnoop, hrec]
          simp
        · have hchild : ∀ q ∈ rest ++ node.children, ∀ c,
              ReachFrom s.tree q c → handled s c := by
            intro q hq c hr
            rcases List.mem_append.mp hq with h1 | h2
            · exact hh q (List.mem_cons_of_mem qh h1) c hr
            · exact hh qh (List.mem_cons_self qh rest) c
                (ReachFrom.head qh q c node hg h2 hr)
          obtain ⟨flag, hrec⟩ := ih (rest ++ node.children) s k hchild
          refine ⟨flag, ?_⟩
          simp only [scanGo, hg, hrd, if_false, hrec]

/-- C7: SCAN_PLATFORM is idempotent.  After one complete scan (the fuel
bound drained the BFS queue, as the source loop always does), a second
scan with any spawn oracle emits no events at all — Running and Error
nodes are skipped, and nodes left Ready because no manifest driver matched
do not spawn again — and the state is unchanged. -/
theorem C7_scan_idempotent (s : UState) (orc1 orc2 : SpawnOracle) (f1 f2 : Nat)
    (hreach : Reach s)
    (hcomp : (scanPlatform s orc1 f1).2.2.2 = true) :
    (scanPlatform (scanPlatform s orc1 f1).1 orc2 f2).2.2.1 = [] ∧
    (scanPlatform (scanPlatform s orc1 f1).1 orc2 f2).1 = (scanPlatform s orc1 f1).1 := by
  have hwf : treeWF s.tree := (reach_inv s hreach).2.1
  rcases h1 : scanPlatform s orc1 f1 with ⟨s1, k1, evs1, comp⟩
  rw [h1] at hcomp
  have hc : comp = true := hcomp
  subst hc
  show (scanPlatform s1 orc2 f2).2.2.1 = [] ∧ (scanPlatform s1 orc2 f2).1 = s1
  cases hroot : s.tree.root with
  | none =>
    have h1x : scanPlatform s orc1 f1 = (s, 0, [], true) := by
      unfold scanPlatform
      rw [hroot]
    rw [h1x] at h1
    have hs1 : s1 = s := (congrArg (fun x => x.1) h1 : s = s1).symm
    have h2 : scanPlatform s orc2 f2 = (s, 0, [], true) := by
      unfold scanPlatform
      rw [hroot]
    rw [hs1, h2]
    exact ⟨rfl, rfl⟩
  | some root =>
    have h1x : scanPlatform s orc1 f1 = scanGo orc1 f1 [root] s 0 := by
      unfold scanPlatform scanSubtree
      rw [hroot]
    rw [h1x] at h1
    have hpost := scan_post orc1 f1 [root] s 0 s1 k1 evs1 hwf h1
    have hpres : scanPreserves s s1 := by
      have h2 := (scanGo_preserves orc1 f1 [root] s 0 hwf).1
      rw [h1] at h2
      exact h2
    have hroot1 : s1.tree.root = some root := by
      rw [hpres.1.1, hroot]
    obtain ⟨flag, hg2⟩ := scan_clean orc2 f2 [root] s1 0 (by
      intro q hq c hr
      have hq2 : q = root := by simpa using hq
      subst hq2
      have hr0 : ReachFrom s.tree q c :=
        ReachFrom_transfer s1.tree s.tree
          (sameShape_symm s.tree s1.tree hpres.1) q c hr
      exact hpost q (by simp) c hr0)
    have h2x : scanPlatform s1 orc2 f2 = scanGo orc2 f2 [root] s1 0 := by
      unfold scanPlatform scanSubtree
      rw [hroot1]
    rw [h2x, hg2]
    exact ⟨rfl, rfl⟩

theorem C7_witness :
    (scanPlatform c7state orcA 5).2.2.2 = true ∧
    (scanPlatform (scanPlatform c7state orcA 5).1 orcA 5).2.2.1 = [] ∧
    (scanPlatform (scanPlatform c7state orcA 5).1 orcA 5).1 =
      (scanPlatform c7state orcA 5).1 :=
  ⟨by decide, C7_scan_idempotent c7state orcA orcA 5 5
    (Reach.insertStep (initState cfgBlk 0) none vdesc (Reach.init cfgBlk 0))
    (by decide)⟩

end Unicorn
